import Mathlib

/-!
Verification of the workflow-engine core of the interactai backend.

The development shallow-embeds the Python modules
`services/workflow_engine.py` and `services/scheduling_service.py`:

* JSON documents (Python dicts/lists as stored in the `JSON` columns) are
  the inductive type `Val`; objects are association lists
  (`Obj = List (String × Val)`) whose lookup takes the leftmost binding.
* The SQLAlchemy session is modelled as explicit state: `DB` carries the
  rows of the workflow tables, and each engine operation is a pure
  function from a `DB` (plus its arguments) to an updated `DB`, the list
  of Celery tasks it dispatched, and its return value.  A committed
  session corresponds to the returned `DB`.
* Python exceptions that the embedded code can raise (attribute errors on
  non-dict documents, `scalar_one_or_none` on a duplicated start node,
  executor failures) are modelled with `Except`; `Except.error` means the
  original code raises at that point.
* Machine-level aspects that the claims do not touch are simplified and
  documented inline: Python's small-int/bool equality coercions and
  container `==` are not modelled (every comparison performed by the
  embedded code paths is between scalar identifiers), text lowering is
  ASCII (as in every input the code compares), and `datetime` values are
  minutes-since-epoch integers.
-/

/-- A JSON value as stored in the `JSON` columns and passed around as
Python dicts: `null`, booleans, integers, strings, lists and objects.
(Non-integral JSON numbers do not occur in the modelled code paths;
decimal quantities travel as strings, which `condition` nodes parse.) -/
inductive Val where
  | null : Val
  | bool (b : Bool) : Val
  | int (n : Int) : Val
  | str (s : String) : Val
  | list (xs : List Val) : Val
  | dict (o : List (String × Val)) : Val
  deriving Repr

/-- A Python dict, as an association list; the leftmost binding of a key
is its value (the code only ever reads dicts through `.get`). -/
abbrev Obj := List (String × Val)

/-- Python truthiness (`bool(v)`) for the values of `Val`. -/
def truthy : Val → Bool
  | .null => false
  | .bool b => b
  | .int n => n != 0
  | .str s => s != ""
  | .list xs => !xs.isEmpty
  | .dict o => !o.isEmpty

/-- Python's short-circuiting `a or b` on values. -/
def pyOr (a b : Val) : Val := if truthy a then a else b

/-- Is this value JSON/Python `null`? -/
def isNull : Val → Bool
  | .null => true
  | _ => false

mutual

/-- Python `==` on values.  Structural on scalars and containers.
(Python's numeric coercions such as `True == 1` are not modelled; every
comparison the embedded code performs is between strings or `null`.) -/
def vbeq : Val → Val → Bool
  | .null, .null => true
  | .bool a, .bool b => a == b
  | .int a, .int b => a == b
  | .str a, .str b => a == b
  | .list a, .list b => vbeqL a b
  | .dict a, .dict b => vbeqO a b
  | _, _ => false

/-- Pointwise `vbeq` on lists. -/
def vbeqL : List Val → List Val → Bool
  | [], [] => true
  | a :: as_, b :: bs => vbeq a b && vbeqL as_ bs
  | _, _ => false

/-- Pointwise `vbeq` on objects. -/
def vbeqO : List (String × Val) → List (String × Val) → Bool
  | [], [] => true
  | (k1, a) :: as_, (k2, b) :: bs => k1 == k2 && vbeq a b && vbeqO as_ bs
  | _, _ => false

end

mutual

/-- Python `repr(v)` (the rendering `str` uses for values inside
containers).  Strings are always rendered with single quotes. -/
def pyRepr : Val → String
  | .null => "None"
  | .bool b => if b then "True" else "False"
  | .int n => toString n
  | .str s => "'" ++ s ++ "'"
  | .list xs => "[" ++ pyReprL xs ++ "]"
  | .dict o => "\x7b" ++ pyReprO o ++ "\x7d"

/-- Comma-joined `repr`s of the elements of a list. -/
def pyReprL : List Val → String
  | [] => ""
  | [v] => pyRepr v
  | v :: rest => pyRepr v ++ ", " ++ pyReprL rest

/-- Comma-joined `'key': repr` entries of an object. -/
def pyReprO : List (String × Val) → String
  | [] => ""
  | [(k, v)] => "'" ++ k ++ "': " ++ pyRepr v
  | (k, v) :: rest => "'" ++ k ++ "': " ++ pyRepr v ++ ", " ++ pyReprO rest

end

/-- Python `str(v)`: the string itself for strings, `repr` otherwise. -/
def pyStr : Val → String
  | .str s => s
  | v => pyRepr v

/-- Is `needle` a contiguous sublist of the argument? -/
def infixOf (needle : List Char) : List Char → Bool
  | [] => needle.isEmpty
  | c :: rest => needle.isPrefixOf (c :: rest) || infixOf needle rest

/-- Python's `needle in hay` on strings: substring test. -/
def strContains (hay needle : String) : Bool :=
  infixOf needle.toList hay.toList

/-- `d.find?`-style lookup of the leftmost binding of `k`. -/
def olookup (o : Obj) (k : String) : Option Val :=
  (o.find? (fun kv => kv.1 == k)).map (fun kv => kv.2)

/-- Python `d.get(k, default)`. -/
def ogetD (o : Obj) (k : String) (d : Val) : Val := (olookup o k).getD d

/-- Python `d.get(k)` (default `None`). -/
def oget (o : Obj) (k : String) : Val := ogetD o k .null

/-- Python `k in d`. -/
def okey (o : Obj) (k : String) : Bool := (olookup o k).isSome

/-- Python dict merge `{**a, **b}` observed through `olookup`: bindings
of `b` shadow those of `a`.  (Iteration order of the merged dict is not
modelled; every claim reads contexts only through key lookup.) -/
def omerge (a b : Obj) : Obj := b ++ a

/-- View a value as a dict, defaulting to the empty dict for non-dicts.
Used only to type payload fields that the Python code stores verbatim
(`config`, `trigger_config`) as `Obj` record fields; every claim
instantiates those payload entries with a dict or leaves them absent. -/
def asObjD : Val → Obj
  | .dict o => o
  | _ => []

example : pyStr (.list [.int 3, .str "a"]) = "[3, 'a']" := rfl
example : pyStr (.dict [("k", .null)]) = "\x7b'k': None\x7d" := rfl
example : pyOr (.str "") (.str "x") = .str "x" := rfl
example : oget [("a", .int 1), ("a", .int 2)] "a" = .int 1 := rfl

/-- Python's splitting of a character list at a separator character
(`str.split(sep)`): the empty string yields one empty piece. -/
def splitOnChar (sep : Char) : List Char → List (List Char)
  | [] => [[]]
  | c :: rest =>
      match splitOnChar sep rest with
      | h :: t => if c == sep then [] :: h :: t else (c :: h) :: t
      | [] => [[c]]

/-- Python `key.split('.')` as a list of strings. -/
def splitDots (s : String) : List String :=
  (splitOnChar '.' s.toList).map String.mk

/-- ASCII lowering of one character (Python `.lower()`; every string the
embedded code lowers is ASCII). -/
def lowerChar (c : Char) : Char :=
  if 'A' ≤ c && c ≤ 'Z' then Char.ofNat (c.toNat + 32) else c

/-- Python `s.lower()`. -/
def pyLower (s : String) : String := String.mk (s.toList.map lowerChar)

/-- Python whitespace for `str.strip()`. -/
def isPyWhitespace (c : Char) : Bool :=
  c == ' ' || c == '\t' || c == '\n' || c == '\r' || c == '\x0b' || c == '\x0c'

/-- Python `s.strip()`. -/
def pyStrip (s : String) : String :=
  String.mk (((s.toList.dropWhile isPyWhitespace).reverse.dropWhile isPyWhitespace).reverse)

/-- Lexicographic (code-point) order on character lists, as Python
compares strings. -/
def charListLt : List Char → List Char → Bool
  | [], [] => false
  | [], _ :: _ => true
  | _ :: _, [] => false
  | a :: as_, b :: bs => if a < b then true else if b < a then false else charListLt as_ bs

/-- Python `a < b` on strings. -/
def pyLt (a b : String) : Bool := charListLt a.toList b.toList

/-- The resolution loop of `get_context_value`: walk the dotted path,
stepping through dicts with `.get`; a missing key yields `null`, and a
non-dict intermediate value aborts the walk with `null`. -/
def getPath : Val → List String → Val
  | v, [] => v
  | .dict o, p :: rest => getPath (oget o p) rest
  | _, _ :: _ => .null

/-- `get_context_value(context, key)` from `services/workflow_engine.py`:
resolve a dotted path through the context; for a bare key fall back to
the exact root key and then to `context.trigger[key]`.  An empty key
(Python `if not key`) resolves to `null`.  The trigger fallback is
Python `context.get("trigger", \x7b\x7d).get(key)`: when the context
binds `"trigger"` to a non-dict value (including `None`), the inner
`.get` raises `AttributeError`, modelled as `.error`. -/
def get_context_value (context : Obj) (key : String) : Except Unit Val :=
  if key == "" then .ok .null
  else
    let parts := splitDots key
    let v1 := getPath (.dict context) parts
    let v2 := if isNull v1 && parts.length == 1 then oget context key else v1
    if isNull v2 && parts.length == 1 then
      match ogetD context "trigger" (.dict []) with
      | .dict o => .ok (oget o key)
      | _ => .error ()
    else .ok v2

/-- Scanner for the lazy regex `\x7b\x7b(.*?)\x7d\x7d` used by
`hydrate_text`: given the characters after an opening double brace,
return the shortest inner run (not crossing a newline, since `.` does
not match one) together with the characters after the closing double
brace; `none` when no close exists. -/
def findClose : List Char → Option (List Char × List Char)
  | [] => none
  | c :: rest =>
      if c = '}' ∧ rest.head? = some '}' then some ([], rest.tail)
      else if c = '\n' then none
      else (findClose rest).map (fun p => (c :: p.1, p.2))

/-- One fuelled pass of `re.sub` for `hydrate_text`: at each position,
if a double-brace placeholder matches, resolve the stripped key with
`get_context_value` (an `AttributeError` there propagates out of the
substitution), substitute `str(value)` when it resolves to a non-null
value and keep the match verbatim otherwise, continuing after the
match; else copy one character.  The fuel only bounds recursion depth;
`hydrate_text` supplies enough. -/
def hydrateF (context : Obj) : ℕ → List Char → Except Unit (List Char)
  | 0, _ => .ok []
  | _ + 1, [] => .ok []
  | f + 1, c :: rest =>
      if c = '{' ∧ rest.head? = some '{' then
        match findClose rest.tail with
        | some (inner, rest2) =>
            match get_context_value context (pyStrip (String.mk inner)) with
            | .error e => .error e
            | .ok v =>
                (hydrateF context f rest2).map (fun tl =>
                  (if isNull v then '{' :: '{' :: (inner ++ ['}', '}'])
                   else (pyStr v).toList) ++ tl)
        | none => (hydrateF context f rest).map (fun tl => '{' :: tl)
      else (hydrateF context f rest).map (fun tl => c :: tl)

/-- `hydrate_text(text, context)`: replace `\x7b\x7bvar\x7d\x7d`
placeholders in `text` with values from `context` (Python
`re.sub(r'\\\x7b\\\x7b(.*?)\\\x7d\\\x7d', replace_var, text)`, where the
replacement keeps the match when the stripped key resolves to `None`).
The string `strip` of the key is modelled by `pyStrip`. -/
def hydrateChars (context : Obj) (cs : List Char) : Except Unit (List Char) :=
  hydrateF context (cs.length + 1) cs

/-- `hydrate_text(text, context)` itself, on strings; an
`AttributeError` raised by `get_context_value` inside the replacement
callback propagates out of `re.sub`, so the call is fallible. -/
def hydrate_text (text : String) (context : Obj) : Except Unit String :=
  (hydrateChars context text.toList).map String.mk

/-- `re.sub(r'[^\d.]', '', s)` from `clean_num`: keep only digits and
dots (digits modelled as ASCII, as in every value the code handles). -/
def stripNonNum (s : String) : String :=
  String.mk (s.toList.filter (fun c => c.isDigit || c == '.'))

/-- Numeric value of a run of decimal digits (0 when empty). -/
def parseNatDigits (l : List Char) : ℕ :=
  l.foldl (fun acc c => acc * 10 + (c.toNat - '0'.toNat)) 0

/-- Powers of ten over the integers. -/
def pow10 : ℕ → ℤ
  | 0 => 1
  | k + 1 => 10 * pow10 k

/-- An exact decimal `mantissa / 10 ^ scale`, the value Python's
`float()` receives from a digits-and-dots string (the comparison the
code performs on such values is modelled exactly). -/
abbrev Decimal := ℤ × ℕ

/-- The number denoted by a `Decimal`, as a rational. -/
def decimalVal (x : Decimal) : ℚ := (x.1 : ℚ) / (10 : ℚ) ^ x.2

/-- Numeric order on decimals: `x < y` iff cross-multiplied mantissas
compare. -/
def decimalLt (x y : Decimal) : Bool :=
  decide (x.1 * pow10 y.2 < y.1 * pow10 x.2)

/-- Python `float(s)` on a non-empty string of digits and dots: defined
iff at most one dot and at least one digit are present (otherwise
`float` raises `ValueError`). -/
def parseCleaned (s : String) : Option Decimal :=
  let cs := s.toList
  if cs.count '.' ≤ 1 && cs.any (fun c => c.isDigit) then
    let ip := cs.takeWhile (fun c => c != '.')
    let fp := (cs.dropWhile (fun c => c != '.')).drop 1
    some (((parseNatDigits ip : ℤ) * pow10 fp.length + (parseNatDigits fp : ℤ), fp.length))
  else none

/-- `clean_num(v)` from the `greater_than` branch of
`execute_node_logic`: numbers (and booleans, which Python treats as
ints) pass through; any other value is `str`-ed, stripped to digits and
dots, and parsed — an empty cleaned string counts as `0.0`, and a
`none` result models the `ValueError` that triggers the string-compare
fallback. -/
def clean_num (v : Val) : Option Decimal :=
  match v with
  | .int n => some ((n, 0))
  | .bool b => some ((if b then 1 else 0, 0))
  | _ =>
      let c := stripNonNum (pyStr v)
      if c == "" then some ((0, 0)) else parseCleaned c

/-- The `condition` branch of `execute_node_logic`: evaluate
`(variable, operator, value)` against the context and return
`condition_eval` as the string `"true"` or `"false"`.  An
`AttributeError` raised by `get_context_value` propagates out of the
executor.  A non-string `variable`/`operator` is modelled as the empty
string (the Python code would raise on a non-string variable; no claim
exercises that). -/
def execute_condition (config : Obj) (context : Obj) : Except Unit Obj :=
  let varName := match oget config "variable" with | .str s => s | _ => ""
  let operator := match ogetD config "operator" (.str "contains") with | .str s => s | _ => ""
  let target_value := oget config "value"
  match get_context_value context varName with
  | .error e => .error e
  | .ok actual_value =>
      let result : Bool :=
        if operator == "exists" then
          match actual_value with
          | .null => false
          | .str s => s != ""
          | _ => true
        else if isNull actual_value then false
        else if operator == "equals" then
          pyLower (pyStr actual_value) == pyLower (pyStr target_value)
        else if operator == "contains" then
          truthy target_value &&
            strContains (pyLower (pyStr actual_value)) (pyLower (pyStr target_value))
        else if operator == "greater_than" then
          match clean_num actual_value, clean_num target_value with
          | some a, some t => decimalLt t a
          | _, _ => pyLt (pyStr target_value) (pyStr actual_value)
        else false
      .ok [("condition_eval", .str (if result then "true" else "false"))]

example : hydrate_text "Hi \x7b\x7bname\x7d\x7d!" [("name", .str "Ada")] = .ok "Hi Ada!" := rfl
example : hydrate_text "Hi \x7b\x7bmissing\x7d\x7d!" [] = .ok "Hi \x7b\x7bmissing\x7d\x7d!" := rfl
example : hydrate_text "\x7b\x7bx\x7d\x7d" [("trigger", .null)] = .error () := rfl
example : get_context_value [("trigger", .dict [("k", .int 7)])] "k" = .ok (.int 7) := rfl
example : get_context_value [("trigger", .dict [("k", .int 7)])] "trigger.k" = .ok (.int 7) := rfl
example : get_context_value [("trigger", .str "boom")] "x" = .error () := rfl
example :
    execute_condition [("variable", .str "x"), ("operator", .str "greater_than"), ("value", .str "$5,000")]
      [("x", .str "$10,000")] = .ok [("condition_eval", .str "true")] := rfl
example :
    execute_condition [("variable", .str "x"), ("operator", .str "equals"), ("value", .str "ok")]
      [("x", .str "OK")] = .ok [("condition_eval", .str "true")] := rfl

/-- Row of the `workflows` table (columns the engine reads). -/
structure WorkflowM where
  id : String
  business_id : String
  name : Val
  is_active : Bool
  trigger_type : Option String
  trigger_config : Obj
  deriving Repr

/-- Row of the `workflow_nodes` table. -/
structure NodeM where
  id : String
  workflow_id : String
  type : Option String
  config : Obj
  deriving Repr

/-- Row of the `workflow_edges` table (`condition_value` is nullable). -/
structure EdgeM where
  workflow_id : String
  source_id : String
  target_id : String
  condition_value : Option String
  deriving Repr

/-- Row of the `workflow_executions` table. -/
structure ExecM where
  id : String
  workflow_id : String
  business_id : String
  status : String
  trigger_event : Val
  context_data : Obj
  resume_payload : Val
  deriving Repr

/-- Row of the `execution_steps` table. -/
structure StepM where
  id : String
  execution_id : String
  node_id : String
  status : String
  input_data : Obj
  output_data : Val
  error : Option String
  deriving Repr

/-- A Celery `process_node` dispatch: `delay` has countdown 0,
`apply_async(countdown=k)` has countdown `k > 0`. -/
structure TaskM where
  execution_id : String
  node_id : String
  countdown : ℤ
  deriving Repr

/-- The workflow tables plus a counter for freshly generated primary
keys (`uuid4` in the source; row ids are assumed unique, as primary
keys are). -/
structure DB where
  workflows : List WorkflowM
  nodes : List NodeM
  edges : List EdgeM
  executions : List ExecM
  steps : List StepM
  nextId : ℕ
  deriving Repr

/-- Fresh primary key from the counter. -/
def freshId (tag : String) (n : ℕ) : String := tag ++ toString n

/-- The guard of one edge in `get_next_nodes`: an edge with a falsy
`condition_value` is always taken; otherwise the edge is taken iff
`str(output.get("condition_eval"))` equals it (raising — `error` —
when the output is not a dict, as `output.get` would). -/
def edgeKeep (output : Val) (e : EdgeM) : Except Unit Bool :=
  match e.condition_value with
  | some c =>
      if c != "" then
        match output with
        | .dict o => .ok (pyStr (oget o "condition_eval") == c)
        | _ => .error ()
      else .ok true
  | none => .ok true

/-- The edge loop of `get_next_nodes`: keep the targets (that exist) of
the edges whose guard passes, in edge order. -/
def get_next_nodes_go (nodes : List NodeM) (output : Val) : List EdgeM → Except Unit (List NodeM)
  | [] => .ok []
  | e :: rest => do
      let keep ← edgeKeep output e
      let tail ← get_next_nodes_go nodes output rest
      if keep then
        match nodes.find? (fun n => n.id == e.target_id) with
        | some t => .ok (t :: tail)
        | none => .ok tail
      else .ok tail

/-- `get_next_nodes(session, current_node, output)`: outgoing edges of
the node, filtered by their guards. -/
def get_next_nodes (nodes : List NodeM) (edges : List EdgeM) (node : NodeM) (output : Val) :
    Except Unit (List NodeM) :=
  get_next_nodes_go nodes output (edges.filter (fun e => e.source_id == node.id))

/-- The participant identifier of an inbound event or stored trigger:
`from_number` if truthy, else `user_id` (Python `or`). -/
def participant (o : Obj) : Val :=
  pyOr (oget o "from_number") (oget o "user_id")

/-- The normalized message body of an inbound event: `message_body` if
truthy, else `message`. -/
def messageBody (o : Obj) : Val :=
  pyOr (oget o "message_body") (oget o "message")

/-- The suspended executions of a tenant, in table order (the query at
the start of `check_and_resume_execution`). -/
def suspendedOf (db : DB) (business_id : String) : List ExecM :=
  db.executions.filter (fun e => e.business_id == business_id && e.status == "suspended")

/-- The matching loop of `check_and_resume_execution`: the first
suspended execution whose stored `context.trigger` participant equals
the inbound one.  A non-dict stored `trigger` value makes the Python
`.get` raise, which is `error`. -/
def resumeFindTarget (uid : Val) : List ExecM → Except Unit (Option ExecM)
  | [] => .ok none
  | e :: rest =>
      match ogetD e.context_data "trigger" (.dict []) with
      | .dict o =>
          if vbeq (participant o) uid then .ok (some e) else resumeFindTarget uid rest
      | _ => .error ()

/-- The target-selection prefix of `check_and_resume_execution`: `none`
when the inbound event carries no truthy participant identifier,
otherwise the first matching suspended execution of the tenant. -/
def resumeTargetOf (db : DB) (business_id : String) (trigger_data : Obj) : Except Unit (Option ExecM) :=
  if truthy (participant trigger_data) then
    resumeFindTarget (participant trigger_data) (suspendedOf db business_id)
  else .ok none

/-- The in-place update `check_and_resume_execution` commits on the
target execution: merge `latest_reply`/`latest_trigger` into the
context, set the status to `running` and clear `resume_payload`. -/
def resumedExecUpdate (target : ExecM) (trigger_data : Obj) : ExecM :=
  { target with
    context_data := omerge target.context_data
      [("latest_reply", messageBody trigger_data), ("latest_trigger", .dict trigger_data)],
    status := "running",
    resume_payload := .null }

/-- Reading `resume_payload.get('node_id')` from a truthy payload
(`null` when the payload is falsy); a truthy non-dict payload would make
`.get` raise. -/
def resumeNodeIdOf (target : ExecM) : Except Unit Val :=
  if truthy target.resume_payload then
    match target.resume_payload with
    | .dict o => .ok (oget o "node_id")
    | _ => .error ()
  else .ok .null

/-- `WorkflowEngine.check_and_resume_execution(business_id,
trigger_data)`: find a suspended execution of the tenant for the inbound
participant; if found, merge the reply into its context, set it
`running`, clear `resume_payload` (committed in all cases), and — when
the payload held a truthy `node_id` naming an existing node — dispatch
the successors of that node against the synthetic output
`\x7b"user_reply": body\x7d`.  Returns the resumed execution id, or
`none` (also when the payload had no usable `node_id`, in which case the
execution has still been set `running`). -/
def check_and_resume_execution (db : DB) (business_id : String) (trigger_data : Obj) :
    Except Unit (DB × List TaskM × Option String) := do
  let target? ← resumeTargetOf db business_id trigger_data
  match target? with
  | none => .ok (db, [], none)
  | some target => do
      let resume_node_id ← resumeNodeIdOf target
      let upd := fun e => if e.id == target.id then resumedExecUpdate target trigger_data else e
      let db1 := { db with executions := db.executions.map upd }
      if !(truthy resume_node_id) then .ok (db1, [], none)
      else
        match db1.nodes.find? (fun n => vbeq (.str n.id) resume_node_id) with
        | none => .ok (db1, [], some target.id)
        | some node => do
            let node_output := Val.dict [("user_reply", messageBody trigger_data)]
            let nexts ← get_next_nodes db1.nodes db1.edges node node_output
            .ok (db1, nexts.map (fun n => ⟨target.id, n.id, 0⟩), some target.id)

/-- Lowering a value that the Python code calls `.lower()` on: defined
only for strings (anything else raises). -/
def lowerE : Val → Except Unit String
  | .str s => .ok (pyLower s)
  | _ => .error ()

/-- `WorkflowEngine._check_trigger_match(config, data)`: an empty config
matches; a `keyword` entry must be a case-insensitive substring of
`data.message`; an `intent` entry must equal `data.intent`; a `status`
entry must equal `data.new_status` case-insensitively. -/
def check_trigger_match (config : Obj) (data : Obj) : Except Unit Bool := do
  if !(truthy (.dict config)) then .ok true
  else do
    let kOk ←
      if okey config "keyword" then do
        let message ← lowerE (ogetD data "message" (.str ""))
        let keyword ← lowerE (oget config "keyword")
        Except.ok (strContains message keyword)
      else Except.ok true
    if !kOk then .ok false
    else
      if okey config "intent" && !(vbeq (oget data "intent") (oget config "intent")) then .ok false
      else
        if okey config "status" then do
          let ns ← lowerE (ogetD data "new_status" (.str ""))
          let ts ← lowerE (oget config "status")
          Except.ok (ns == ts)
        else .ok true

/-- The trigger types compatible with an inbound event kind
(`message_created` also matches `keyword` and `intent` workflows;
`lead_status_update` also matches `lead_event`). -/
def matchTargetTypes (trigger_type : String) : List String :=
  if trigger_type == "message_created" then [trigger_type, "keyword", "intent"]
  else if trigger_type == "lead_status_update" then [trigger_type, "lead_event"]
  else [trigger_type]

/-- `scalar_one_or_none` over the query for a workflow's `start` node:
`none` when absent, the node when unique, and an exception (`error`)
when several nodes of type `start` exist. -/
def startNodeOf (nodes : List NodeM) (workflow_id : String) : Except Unit (Option NodeM) :=
  match nodes.filter (fun n => n.workflow_id == workflow_id && n.type == some "start") with
  | [] => .ok none
  | [n] => .ok (some n)
  | _ => .error ()

/-- The per-workflow loop of `trigger_workflow`: for each matching
workflow create an execution with context
`\x7b"trigger": trigger_data, "business_id": business_id\x7d` and status
`running`, dispatch its start node if it has one (the execution row is
kept either way), and collect the ids of executions whose start node was
dispatched. -/
def triggerMatchGo (business_id : String) (trigger_data : Obj) :
    List WorkflowM → DB → List TaskM → List String → Except Unit (DB × List TaskM × List String)
  | [], db, tasks, execs => .ok (db, tasks, execs)
  | wf :: rest, db, tasks, execs => do
      let m ← check_trigger_match wf.trigger_config trigger_data
      if !m then triggerMatchGo business_id trigger_data rest db tasks execs
      else
        let eid := freshId "exec" db.nextId
        let execution : ExecM :=
          { id := eid, workflow_id := wf.id, business_id := business_id, status := "running",
            trigger_event := .dict trigger_data,
            context_data := [("trigger", .dict trigger_data), ("business_id", .str business_id)],
            resume_payload := .null }
        let db1 := { db with executions := db.executions ++ [execution], nextId := db.nextId + 1 }
        let sn ← startNodeOf db1.nodes wf.id
        match sn with
        | some n =>
            triggerMatchGo business_id trigger_data rest db1
              (tasks ++ [⟨eid, n.id, 0⟩]) (execs ++ [eid])
        | none => triggerMatchGo business_id trigger_data rest db1 tasks execs

/-- The trigger-matching phase of `WorkflowEngine.trigger_workflow`
(everything after the resume check): run `triggerMatchGo` over the
tenant's active workflows of a compatible trigger type. -/
def triggerMatchPhase (db : DB) (business_id trigger_type : String) (trigger_data : Obj) :
    Except Unit (DB × List TaskM × List String) :=
  let target_types := matchTargetTypes trigger_type
  let wfs := db.workflows.filter (fun w =>
    w.business_id == business_id && w.is_active &&
      (match w.trigger_type with | some t => target_types.contains t | none => false))
  triggerMatchGo business_id trigger_data wfs db [] []

/-- `WorkflowEngine.trigger_workflow(business_id, trigger_type,
trigger_data)`: for `message_created` events first try to resume a
suspended execution and, if one is resumed, return exactly its id;
otherwise fall through to trigger matching. -/
def trigger_workflow (db : DB) (business_id trigger_type : String) (trigger_data : Obj) :
    Except Unit (DB × List TaskM × List String) := do
  if trigger_type == "message_created" then do
    let r ← check_and_resume_execution db business_id trigger_data
    match r with
    | (db1, tasks1, some rid) => .ok (db1, tasks1, [rid])
    | (db1, tasks1, none) => do
        let (db2, tasks2, execs) ← triggerMatchPhase db1 business_id trigger_type trigger_data
        .ok (db2, tasks1 ++ tasks2, execs)
  else triggerMatchPhase db business_id trigger_type trigger_data

/-- `WorkflowEngine.trigger_specific_workflow(business_id, workflow_id,
trigger_data)`: manual start of one workflow.  The created execution's
context is `\x7b"trigger": trigger_data\x7d` (no tenant key); without a
start node the transaction is rolled back and nothing persists. -/
def trigger_specific_workflow (db : DB) (business_id workflow_id : String) (trigger_data : Obj) :
    Except Unit (DB × List TaskM × Option String) := do
  match db.workflows.find? (fun w => w.id == workflow_id) with
  | none => .ok (db, [], none)
  | some wf =>
      if wf.business_id != business_id then .ok (db, [], none)
      else do
        let eid := freshId "exec" db.nextId
        let execution : ExecM :=
          { id := eid, workflow_id := wf.id, business_id := business_id, status := "running",
            trigger_event := .dict trigger_data,
            context_data := [("trigger", .dict trigger_data)],
            resume_payload := .null }
        let sn ← startNodeOf db.nodes wf.id
        match sn with
        | some n =>
            .ok ({ db with executions := db.executions ++ [execution], nextId := db.nextId + 1 },
                 [⟨eid, n.id, 0⟩], some eid)
        | none => .ok (db, [], none)

/-- The delay payload the dispatcher reads after a completed step:
`output.get("seconds", 0)` when the output is a dict carrying
`orchestration_signal = "delay"`, else `0`. -/
def delayOf (output : Val) : Val :=
  match output with
  | .dict o =>
      if vbeq (oget o "orchestration_signal") (.str "delay") then ogetD o "seconds" (.int 0)
      else .int 0
  | _ => .int 0

/-- The completed-step tail of `process_node_async`: mark the step
`completed` with the output, merge a dict output into the execution's
context (both committed), then query successors and dispatch them with
the computed countdown; with no successor the execution is marked
`completed`.  A raised exception after the commit (non-dict output on a
guarded edge, or a non-integer delay with successors present) keeps the
committed state and dispatches nothing. -/
def dispatchCompleted (db1 : DB) (execution : ExecM) (node : NodeM) (sid : String)
    (output : Val) (merged : Obj) : DB × List TaskM :=
  let updStep := fun (s : StepM) =>
    if s.id == sid then { s with status := "completed", output_data := output } else s
  let updCtx := fun (e : ExecM) =>
    if e.id == execution.id then { e with context_data := merged } else e
  let db2 := { db1 with steps := db1.steps.map updStep, executions := db1.executions.map updCtx }
  match get_next_nodes db2.nodes db2.edges node output with
  | .error _ => (db2, [])
  | .ok nexts =>
      if nexts.isEmpty then
        let updDone := fun (e : ExecM) =>
          if e.id == execution.id then { e with status := "completed" } else e
        ({ db2 with executions := db2.executions.map updDone }, [])
      else
        match delayOf output with
        | .int k => (db2, nexts.map (fun n => ⟨execution.id, n.id, if 0 < k then k else 0⟩))
        | _ => (db2, [])

/-- `process_node_async(execution_id, node_id)` from
`services/workflow_engine.py`, with the executor's behaviour supplied as
`execResult` (`Except.error e` models `execute_node_logic` raising `e`).
A missing node or execution drops the task (no terminal-status check
exists).  Otherwise a `running` step with the current context as input
is appended and committed; an executor exception is only logged — the
step stays `running` and the execution is untouched; a dict output with
`orchestration_signal = "suspend"` marks the step and the execution
`suspended` and stores `resume_payload` without merging the output into
the context; any other output completes the step via
`dispatchCompleted`. -/
def process_node_async (db : DB) (execution_id node_id : String) (execResult : Except String Val) :
    DB × List TaskM :=
  match db.nodes.find? (fun n => n.id == node_id), db.executions.find? (fun e => e.id == execution_id) with
  | some node, some execution =>
      let sid := freshId "step" db.nextId
      let step : StepM :=
        { id := sid, execution_id := execution.id, node_id := node.id, status := "running",
          input_data := execution.context_data, output_data := .null, error := none }
      let db1 := { db with steps := db.steps ++ [step], nextId := db.nextId + 1 }
      match execResult with
      | .error _ => (db1, [])
      | .ok output =>
          match output with
          | .dict o =>
              if vbeq (oget o "orchestration_signal") (.str "suspend") then
                let updStep := fun (s : StepM) =>
                  if s.id == sid then { s with status := "suspended" } else s
                let updExec := fun (e : ExecM) =>
                  if e.id == execution.id then
                    { e with status := "suspended",
                             resume_payload := .dict [("node_id", oget o "resume_node_id"), ("step_id", .str sid)] }
                  else e
                ({ db1 with steps := db1.steps.map updStep, executions := db1.executions.map updExec }, [])
              else
                dispatchCompleted db1 execution node sid output (omerge execution.context_data o)
          | _ => dispatchCompleted db1 execution node sid output execution.context_data
  | _, _ => (db, [])

/-- No-duplicates test on a list of ids. -/
def nodupB : List String → Bool
  | [] => true
  | x :: xs => !(xs.contains x) && nodupB xs

/-- The node loop of `create_workflow`: build a `WorkflowNode` row per
entry, taking the provided id or a fresh one.  A non-dict entry (or a
node id of a non-string type, outside the modelled fragment) raises. -/
def createNodes (workflow_id : String) : List Val → ℕ → Except Unit (List NodeM × ℕ)
  | [], k => .ok ([], k)
  | .dict nd :: rest, k => do
      let (nid, k1) ←
        match olookup nd "id" with
        | some (.str s) => Except.ok ((s, k))
        | none => Except.ok ((freshId "node" k, k + 1))
        | some _ => Except.error ()
      let node : NodeM :=
        { id := nid, workflow_id := workflow_id,
          type := (match olookup nd "type" with | some (.str s) => some s | _ => none),
          config := asObjD (ogetD nd "config" (.dict [])) }
      let (ns, k2) ← createNodes workflow_id rest k1
      .ok ((node :: ns, k2))
  | _ :: _, _ => .error ()

/-- The edge loop of `create_workflow`: an edge whose `source`/`target`
(`source_id`/`target_id` as fallback) is not an id of one of the
definition's nodes is skipped with a warning — not persisted and not an
error. -/
def createEdges (workflow_id : String) (node_ids : List String) : List Val → Except Unit (List EdgeM)
  | [] => .ok []
  | .dict ed :: rest => do
      let source := pyOr (oget ed "source") (oget ed "source_id")
      let target := pyOr (oget ed "target") (oget ed "target_id")
      let es ← createEdges workflow_id node_ids rest
      match source, target with
      | .str s, .str t =>
          if node_ids.contains s && node_ids.contains t then
            let cv := match pyOr (oget ed "condition") (oget ed "condition_value") with
              | .str c => some c
              | _ => none
            .ok ({ workflow_id := workflow_id, source_id := s, target_id := t,
                   condition_value := cv } :: es)
          else .ok es
      | _, _ => .ok es
  | _ :: _ => .error ()

/-- `WorkflowEngine.create_workflow(business_id, workflow_data)`: parse
and persist the workflow, its nodes, and the edges whose endpoints
exist, with no validation of the node set (in particular no start-node
check); any exception inside the `try` (malformed entries, or the
primary-key violation of duplicated node ids at commit) rolls the
transaction back and reports an error payload. -/
def create_workflow (db : DB) (business_id : String) (workflow_data : Obj) : DB × Val :=
  let wfid := freshId "wf" db.nextId
  let wf : WorkflowM :=
    { id := wfid, business_id := business_id,
      name := ogetD workflow_data "name" (.str "Untitled Workflow"),
      is_active := true,
      trigger_type := (match olookup workflow_data "trigger_type" with | some (.str s) => some s | _ => none),
      trigger_config := asObjD (ogetD workflow_data "trigger_config" (.dict [])) }
  let build : Except Unit (List NodeM × List EdgeM × ℕ) := do
    let nodesData ←
      match ogetD workflow_data "nodes" (.list []) with
      | .list xs => Except.ok xs
      | _ => Except.error ()
    let (newNodes, k) ← createNodes wfid nodesData (db.nextId + 1)
    let ids := newNodes.map (fun n => n.id)
    if !(nodupB ids) || db.nodes.any (fun n => ids.contains n.id) then Except.error ()
    else do
      let edgesData ←
        match ogetD workflow_data "edges" (.list []) with
        | .list xs => Except.ok xs
        | _ => Except.error ()
      let newEdges ← createEdges wfid ids edgesData
      Except.ok ((newNodes, newEdges, k))
  match build with
  | .ok (ns, es, k) =>
      ({ db with workflows := db.workflows ++ [wf], nodes := db.nodes ++ ns,
                 edges := db.edges ++ es, nextId := k },
       .dict [("status", .str "success"), ("id", .str wfid)])
  | .error _ => (db, .dict [("status", .str "error"), ("message", .str "exception")])

/-- Row of the `appointment_types` table (fields the slot computation
reads). -/
structure ApptTypeM where
  id : String
  business_id : String
  duration_minutes : ℤ
  deriving Repr

/-- Row of the `availability_rules` table.  `start_time`/`end_time` are
minutes from midnight (datetimes are modelled at minute granularity). -/
structure RuleM where
  business_id : String
  day_of_week : ℤ
  start_time : ℤ
  end_time : ℤ
  is_active : Bool
  deriving Repr

/-- Row of the `appointments` table; `start_at`/`end_at` are minutes
since the epoch. -/
structure ApptM where
  business_id : String
  start_at : ℤ
  end_at : ℤ
  status : String
  deriving Repr

/-- The scheduling tables. -/
structure SchedDB where
  types : List ApptTypeM
  rules : List RuleM
  appointments : List ApptM
  deriving Repr

/-- Python `date.weekday()` (Monday = 0) for a date given as days since
the epoch (1970-01-01 was a Thursday). -/
def dayOfWeek (date : ℤ) : ℤ := (date + 3) % 7

/-- `datetime.combine(date, t)` at minute granularity. -/
def combineDT (date : ℤ) (t : ℤ) : ℤ := date * 1440 + t

/-- Fuelled slot loop of `get_available_slots`: starting at `cur`, emit
`cur` and step by `d` while `cur + d ≤ e`.  The fuel only bounds the
recursion; `genSlots` supplies enough.  The `0 < d` guard makes the
model total where the Python loop would diverge (a nonpositive
duration); the claims assume a positive duration. -/
def genSlotsF (d : ℤ) : ℕ → ℤ → ℤ → List ℤ
  | 0, _, _ => []
  | f + 1, cur, e => if 0 < d ∧ cur + d ≤ e then cur :: genSlotsF d f (cur + d) e else []

/-- All slot starts of one availability window. -/
def genSlots (d cur e : ℤ) : List ℤ := genSlotsF d (e - cur).toNat cur e

/-- `SchedulingService.get_available_slots(business_id, date,
appointment_type_id)` with the clock passed as `now`: an unknown or
foreign appointment type yields no slots; otherwise expand each active
availability rule of the date's weekday into candidate slots and keep
those that overlap no scheduled/confirmed appointment starting on that
date and lie strictly in the future. -/
def get_available_slots (db : SchedDB) (business_id : String) (date : ℤ)
    (appointment_type_id : String) (now : ℤ) : List ℤ :=
  match db.types.find? (fun t => t.id == appointment_type_id) with
  | none => []
  | some apt_type =>
      if apt_type.business_id != business_id then []
      else
        let duration := apt_type.duration_minutes
        let rules := db.rules.filter (fun r =>
          r.business_id == business_id && r.day_of_week == dayOfWeek date && r.is_active)
        if rules.isEmpty then []
        else
          let start_of_day := combineDT date 0
          let end_of_day := combineDT date 1439
          let existing_apts := db.appointments.filter (fun a =>
            a.business_id == business_id && decide (start_of_day ≤ a.start_at) &&
              decide (a.start_at ≤ end_of_day) &&
              (a.status == "scheduled" || a.status == "confirmed"))
          rules.flatMap (fun rule =>
            (genSlots duration (combineDT date rule.start_time) (combineDT date rule.end_time)).filter
              (fun slot_start =>
                !(existing_apts.any (fun apt =>
                    decide (slot_start < apt.end_at) && decide (apt.start_at < slot_start + duration))) &&
                decide (now < slot_start)))

example : genSlots 30 540 630 = [540, 570, 600] := rfl
example :
    get_available_slots
      { types := [{ id := "t1", business_id := "b", duration_minutes := 30 }],
        rules := [{ business_id := "b", day_of_week := 4, start_time := 540, end_time := 630, is_active := true }],
        appointments := [{ business_id := "b", start_at := 1980, end_at := 2010, status := "scheduled" }] }
      "b" 1 "t1" 0 = [1980 + 30, 1980 + 60] := rfl

/-- `decimalLt` is the numeric (rational) comparison of the decimals
Python's `float()` produced. -/
theorem decimalLt_iff (x y : Decimal) : decimalLt x y = true ↔ decimalVal x < decimalVal y := by
  have hx : (0 : ℚ) < (10 : ℚ) ^ x.2 := by positivity
  have hy : (0 : ℚ) < (10 : ℚ) ^ y.2 := by positivity
  have hpow : ∀ k : ℕ, ((pow10 k : ℤ) : ℚ) = (10 : ℚ) ^ k := by
    intro k
    induction k with
    | zero => simp [pow10]
    | succ n ih => push_cast [pow10, pow_succ, ih]; ring
  rw [decimalLt, decide_eq_true_iff, decimalVal, decimalVal, div_lt_div_iff₀ hx hy]
  rw [← hpow x.2, ← hpow y.2]
  constructor
  · intro h
    have h2 : ((x.1 * pow10 y.2 : ℤ) : ℚ) < ((y.1 * pow10 x.2 : ℤ) : ℚ) := by exact_mod_cast h
    push_cast at h2 ⊢
    linarith
  · intro h
    have h2 : ((x.1 * pow10 y.2 : ℤ) : ℚ) < ((y.1 * pow10 x.2 : ℤ) : ℚ) := by push_cast; linarith
    exact_mod_cast h2

/-- A value other than `null` is not `isNull`. -/
theorem isNull_false {v : Val} (h : v ≠ Val.null) : isNull v = false := by
  cases v <;> simp_all [isNull]

/-- C6 (amended).  For every condition node with a string `variable` and
string (or defaulted) `operator` and every context at which the variable
resolves without raising: the executor returns `condition_eval` as
`"true"` or `"false"`; `exists` is `"true"` iff the resolved value is
non-null and not the empty string; a null resolved value yields
`"false"` for every other operator; `equals` is case-insensitive string
equality; `contains` is a case-insensitive substring test when the
target value is truthy and yields `"false"` for a falsy target;
`greater_than` strips non-numeric characters, compares numerically when
both sides parse, and falls back to Python string comparison when
parsing fails.  When resolution raises (`get_context_value` hits the
trigger fallback with a non-dict `trigger` binding), the exception
propagates out of the executor instead of a verdict. -/
theorem C6_condition_operator_semantics
    (config context : Obj) (varName op : String)
    (hvar : oget config "variable" = Val.str varName)
    (hop : ogetD config "operator" (Val.str "contains") = Val.str op) :
    (∀ A : Val, get_context_value context varName = Except.ok A →
      ((execute_condition config context = Except.ok [("condition_eval", Val.str "true")] ∨
        execute_condition config context = Except.ok [("condition_eval", Val.str "false")]) ∧
      (op = "exists" →
        (execute_condition config context = Except.ok [("condition_eval", Val.str "true")] ↔
          (A ≠ Val.null ∧ A ≠ Val.str ""))) ∧
      (A = Val.null → op ≠ "exists" →
        execute_condition config context = Except.ok [("condition_eval", Val.str "false")]) ∧
      (op = "equals" → A ≠ Val.null →
        (execute_condition config context = Except.ok [("condition_eval", Val.str "true")] ↔
          pyLower (pyStr A) = pyLower (pyStr (oget config "value")))) ∧
      (op = "contains" → A ≠ Val.null →
        truthy (oget config "value") = true →
        (execute_condition config context = Except.ok [("condition_eval", Val.str "true")] ↔
          strContains (pyLower (pyStr A)) (pyLower (pyStr (oget config "value"))) = true)) ∧
      (op = "contains" → A ≠ Val.null →
        truthy (oget config "value") = false →
        execute_condition config context = Except.ok [("condition_eval", Val.str "false")]) ∧
      (op = "greater_than" → A ≠ Val.null →
        (execute_condition config context = Except.ok [("condition_eval", Val.str "true")] ↔
          (match clean_num A, clean_num (oget config "value") with
          | some a, some t => decimalVal t < decimalVal a
          | _, _ => pyLt (pyStr (oget config "value")) (pyStr A) = true))))) ∧
    (get_context_value context varName = Except.error () →
      execute_condition config context = Except.error ()) := by
  have ne1 : ("equals" : String) ≠ "exists" := by decide
  have ne2 : ("contains" : String) ≠ "exists" := by decide
  have ne3 : ("contains" : String) ≠ "equals" := by decide
  have ne4 : ("greater_than" : String) ≠ "exists" := by decide
  have ne5 : ("greater_than" : String) ≠ "equals" := by decide
  have ne6 : ("greater_than" : String) ≠ "contains" := by decide
  constructor
  case right =>
    intro hE
    simp [execute_condition, hvar, hop, hE]
  intro A hA
  have hexists : ∃ b : Bool, execute_condition config context =
      Except.ok [("condition_eval", Val.str (if b then "true" else "false"))] := by
    simp only [execute_condition, hvar, hop, hA]
    exact ⟨_, rfl⟩
  refine ⟨?_, ?_, ?_, ?_, ?_, ?_, ?_⟩
  · obtain ⟨b, hb⟩ := hexists
    cases b
    · right; simp [hb]
    · left; simp [hb]
  · intro hE
    subst hE
    simp only [execute_condition, hvar, hop, hA]
    cases A with
    | str s => by_cases hs : s = "" <;> simp [hs]
    | null => simp
    | bool b => simp
    | int n => simp
    | list xs => simp
    | dict o => simp
  · intro hN hOp
    subst hN
    simp only [execute_condition, hvar, hop, hA]
    have hb : (op == "exists") = false := by simpa using hOp
    simp [hb, isNull]
  · intro hE hN
    subst hE
    simp [execute_condition, hvar, hop, hA, isNull_false hN, ne1]
  · intro hE hN hT
    subst hE
    simp [execute_condition, hvar, hop, hA, isNull_false hN, hT, ne2, ne3]
  · intro hE hN hT
    subst hE
    simp [execute_condition, hvar, hop, hA, isNull_false hN, hT, ne2, ne3]
  · intro hE hN
    subst hE
    simp only [execute_condition, hvar, hop, hA, isNull_false hN]
    cases hca : clean_num A <;>
      cases hct : clean_num (oget config "value") <;>
        simp [hca, hct, decimalLt_iff, ne4, ne5, ne6]

/-- C6, counterexample to the claim as stated: with operator `contains`
and target value `""`, the empty string is a substring of `"hello"`, yet
the executor answers `"false"` (the code guards the substring test with
`if target_value`, so every falsy target yields `"false"`).  The
universal quantification over contexts also fails outright: with the
context binding `trigger` to `None`, resolving the unbound variable
raises `AttributeError` instead of returning a verdict. -/
theorem C6_contains_counterexample :
    execute_condition
        [("variable", Val.str "x"), ("operator", Val.str "contains"), ("value", Val.str "")]
        [("x", Val.str "hello")] = Except.ok [("condition_eval", Val.str "false")] ∧
    strContains (pyLower (pyStr (Val.str "hello"))) (pyLower (pyStr (Val.str ""))) = true ∧
    execute_condition
        [("variable", Val.str "x"), ("operator", Val.str "contains"), ("value", Val.str "a")]
        [("trigger", Val.null)] = Except.error () :=
  ⟨rfl, rfl, rfl⟩

/-- Witness for `C6_condition_operator_semantics` at a concrete node and
context. -/
theorem C6_condition_operator_semantics_witness :
    oget [("variable", Val.str "x"), ("operator", Val.str "equals"), ("value", Val.str "OK")]
        "variable" = Val.str "x" ∧
    execute_condition
        [("variable", Val.str "x"), ("operator", Val.str "equals"), ("value", Val.str "OK")]
        [("x", Val.str "ok")] = Except.ok [("condition_eval", Val.str "true")] := by
  refine ⟨rfl, ?_⟩
  have h := C6_condition_operator_semantics
    [("variable", Val.str "x"), ("operator", Val.str "equals"), ("value", Val.str "OK")]
    [("x", Val.str "ok")] "x" "equals" rfl rfl
  exact ((h.1 (Val.str "ok") rfl).2.2.2.1 rfl (fun hc => Val.noConfusion hc)).mpr rfl

/-- Membership in the fuelled slot loop, given enough fuel: the slots of
a window are exactly the multiples of the duration from its start whose
whole interval fits before its end. -/
theorem genSlotsF_mem (d : ℤ) (hd : 0 < d) :
    ∀ (f : ℕ) (cur e s : ℤ), (e - cur).toNat ≤ f →
      (s ∈ genSlotsF d f cur e ↔ ∃ i : ℕ, s = cur + i * d ∧ s + d ≤ e) := by
  intro f
  induction f with
  | zero =>
      intro cur e s hf
      simp only [genSlotsF, List.not_mem_nil, false_iff]
      rintro ⟨i, rfl, hle⟩
      have hnn : (0 : ℤ) ≤ (i : ℤ) * d := mul_nonneg (Int.natCast_nonneg i) (le_of_lt hd)
      omega
  | succ f ih =>
      intro cur e s hf
      by_cases hc : cur + d ≤ e
      · rw [genSlotsF, if_pos ⟨hd, hc⟩]
        have hfuel : (e - (cur + d)).toNat ≤ f := by omega
        rw [List.mem_cons, ih (cur + d) e s hfuel]
        constructor
        · rintro (rfl | ⟨j, rfl, hj⟩)
          · exact ⟨0, by ring, by omega⟩
          · exact ⟨j + 1, by push_cast; ring, hj⟩
        · rintro ⟨i, rfl, hi⟩
          cases i with
          | zero => left; push_cast; ring
          | succ j =>
              right
              exact ⟨j, by push_cast; ring, by push_cast at hi ⊢; linarith⟩
      · rw [genSlotsF, if_neg (by tauto)]
        simp only [List.not_mem_nil, false_iff]
        rintro ⟨i, rfl, hle⟩
        have hnn : (0 : ℤ) ≤ (i : ℤ) * d := mul_nonneg (Int.natCast_nonneg i) (le_of_lt hd)
        omega

/-- Membership in `genSlots`. -/
theorem genSlots_mem (d cur e s : ℤ) (hd : 0 < d) :
    s ∈ genSlots d cur e ↔ ∃ i : ℕ, s = cur + i * d ∧ s + d ≤ e :=
  genSlotsF_mem d hd (e - cur).toNat cur e s le_rfl

/-- C9.  For a known appointment type of the tenant with positive
duration `d`: if no active availability rule exists for the date's
weekday the slot list is empty; and a time is returned iff it is a
candidate of some such rule (stepping by `d` from the rule's start while
the candidate plus `d` does not exceed the rule's end) whose interval
does not overlap any scheduled/confirmed appointment of the tenant
starting on that date, and which starts strictly after `now`. -/
theorem C9_get_available_slots (db : SchedDB) (business_id : String) (date : ℤ)
    (appointment_type_id : String) (now : ℤ) (apt_type : ApptTypeM)
    (hfind : db.types.find? (fun t => t.id == appointment_type_id) = some apt_type)
    (hbid : apt_type.business_id = business_id)
    (hdur : 0 < apt_type.duration_minutes) :
    (db.rules.filter (fun r =>
        r.business_id == business_id && r.day_of_week == dayOfWeek date && r.is_active) = [] →
      get_available_slots db business_id date appointment_type_id now = []) ∧
    (∀ s : ℤ, s ∈ get_available_slots db business_id date appointment_type_id now ↔
      ((∃ rule ∈ db.rules.filter (fun r =>
            r.business_id == business_id && r.day_of_week == dayOfWeek date && r.is_active),
          ∃ i : ℕ, s = combineDT date rule.start_time + i * apt_type.duration_minutes ∧
            s + apt_type.duration_minutes ≤ combineDT date rule.end_time) ∧
       (∀ apt ∈ db.appointments.filter (fun a =>
            a.business_id == business_id && decide (combineDT date 0 ≤ a.start_at) &&
              decide (a.start_at ≤ combineDT date 1439) &&
              (a.status == "scheduled" || a.status == "confirmed")),
          ¬(s < apt.end_at ∧ apt.start_at < s + apt_type.duration_minutes)) ∧
       now < s)) := by
  constructor
  · intro hrules
    simp [get_available_slots, hfind, hbid, hrules]
  · intro s
    rw [get_available_slots, hfind]
    simp only [hbid, bne_self_eq_false, Bool.false_eq_true, if_false]
    by_cases hrules : db.rules.filter (fun r =>
        r.business_id == business_id && r.day_of_week == dayOfWeek date && r.is_active) = []
    · simp [hrules]
    · rw [if_neg (by simpa [List.isEmpty_iff] using hrules)]
      rw [List.mem_flatMap]
      constructor
      · rintro ⟨rule, hrule, hmem⟩
        rw [List.mem_filter] at hmem
        obtain ⟨hslot, hcond⟩ := hmem
        rw [genSlots_mem _ _ _ _ hdur] at hslot
        simp only [Bool.and_eq_true, Bool.not_eq_true', List.any_eq_false, decide_eq_true_eq,
          Bool.and_eq_true, decide_eq_true_eq] at hcond
        refine ⟨⟨rule, hrule, hslot⟩, ?_, hcond.2⟩
        intro apt hapt hover
        have := hcond.1 apt hapt
        simp only [Bool.and_eq_false_iff, decide_eq_false_iff_not] at this
        tauto
      · rintro ⟨⟨rule, hrule, hslot⟩, hnover, hnow⟩
        refine ⟨rule, hrule, ?_⟩
        rw [List.mem_filter, genSlots_mem _ _ _ _ hdur]
        refine ⟨hslot, ?_⟩
        simp only [Bool.and_eq_true, Bool.not_eq_true', List.any_eq_false, decide_eq_true_eq]
        constructor
        · intro apt hapt
          rcases not_and_or.mp (hnover apt hapt) with h | h
          · simp [h]
          · simp [h]
        · exact hnow

/-- A concrete scheduling state: one 30-minute type, one Friday rule
09:00–10:30, one scheduled appointment occupying the first candidate
slot of day 1 (1970-01-02, a Friday). -/
def schedDB1 : SchedDB :=
  { types := [{ id := "t1", business_id := "b", duration_minutes := 30 }],
    rules := [{ business_id := "b", day_of_week := 4, start_time := 540, end_time := 630, is_active := true }],
    appointments := [{ business_id := "b", start_at := 1980, end_at := 2010, status := "scheduled" }] }

/-- Witness for `C9_get_available_slots`: the 09:30 slot of day 1 is
offered (the 09:00 one is occupied). -/
theorem C9_get_available_slots_witness :
    (schedDB1.types.find? (fun t => t.id == "t1") = some ⟨"t1", "b", 30⟩) ∧
    2010 ∈ get_available_slots schedDB1 "b" 1 "t1" 0 := by
  refine ⟨rfl, ?_⟩
  have h := C9_get_available_slots schedDB1 "b" 1 "t1" 0 ⟨"t1", "b", 30⟩ rfl rfl (by decide)
  refine (h.2 2010).mpr ⟨⟨⟨"b", 4, 540, 630, true⟩, ?_, 1, by decide, by decide⟩, ?_, by decide⟩
  · simp [schedDB1, dayOfWeek]
  · intro apt hapt
    have happ : apt = ⟨"b", 1980, 2010, "scheduled"⟩ := by
      simpa [schedDB1] using (List.mem_filter.mp hapt).1
    subst happ
    decide

/-- Unfolding of one `hydrateF` step on a cons cell. -/
theorem hydrateF_cons (context : Obj) (f : ℕ) (c : Char) (rest : List Char) :
    hydrateF context (f + 1) (c :: rest) =
      if c = '{' ∧ rest.head? = some '{' then
        match findClose rest.tail with
        | some (inner, rest2) =>
            match get_context_value context (pyStrip (String.mk inner)) with
            | .error e => .error e
            | .ok v =>
                (hydrateF context f rest2).map (fun tl =>
                  (if isNull v then '{' :: '{' :: (inner ++ ['}', '}'])
                   else (pyStr v).toList) ++ tl)
        | none => (hydrateF context f rest).map (fun tl => '{' :: tl)
      else (hydrateF context f rest).map (fun tl => c :: tl) := rfl

/-- A successful `findClose` consumed its input: two braces plus the
inner run. -/
theorem findClose_some_length :
    ∀ (l inner r2 : List Char), findClose l = some (inner, r2) →
      l.length = inner.length + 2 + r2.length := by
  intro l
  induction l with
  | nil => intro inner r2 h; simp [findClose] at h
  | cons c rest ih =>
      intro inner r2 h
      rw [findClose] at h
      by_cases h1 : c = '}' ∧ rest.head? = some '}'
      · rw [if_pos h1] at h
        obtain ⟨rfl, rfl⟩ : [] = inner ∧ rest.tail = r2 := by
          simpa using h
        cases rest with
        | nil => simp at h1
        | cons a tl => simp only [List.length_cons, List.tail_cons, List.length_nil]; omega
      · rw [if_neg h1] at h
        by_cases h2 : c = '\n'
        · rw [if_pos h2] at h; simp at h
        · rw [if_neg h2] at h
          cases hfc : findClose rest with
          | none => rw [hfc] at h; simp at h
          | some p =>
              rw [hfc] at h
              obtain ⟨rfl, rfl⟩ : c :: p.1 = inner ∧ p.2 = r2 := by
                simpa using h
              have := ih p.1 p.2 hfc
              simp [this]
              omega

/-- `findClose` on a clean inner run followed by a closing double brace
finds exactly that run. -/
theorem findClose_clean :
    ∀ (inner rest : List Char), (∀ c ∈ inner, c ≠ '}' ∧ c ≠ '\n') →
      findClose (inner ++ '}' :: '}' :: rest) = some (inner, rest) := by
  intro inner
  induction inner with
  | nil => intro rest _; simp [findClose]
  | cons c tl ih =>
      intro rest h
      have hc := h c (List.mem_cons_self c tl)
      have hrec := ih rest (fun x hx => h x (List.mem_cons_of_mem c hx))
      simp only [List.cons_append]
      rw [findClose, if_neg (fun hand => hc.1 hand.1), if_neg hc.2, hrec]
      rfl

/-- `hydrateF` does not depend on the fuel, given enough of it. -/
theorem hydrateF_fuel (context : Obj) :
    ∀ (n : ℕ) (cs : List Char), cs.length ≤ n → ∀ (f1 f2 : ℕ),
      cs.length < f1 → cs.length < f2 →
      hydrateF context f1 cs = hydrateF context f2 cs := by
  intro n
  induction n with
  | zero =>
      intro cs hcs f1 f2 h1 h2
      have hnil : cs = [] := List.length_eq_zero.mp (by omega)
      subst hnil
      obtain ⟨g1, rfl⟩ : ∃ g, f1 = g + 1 := ⟨f1 - 1, by omega⟩
      obtain ⟨g2, rfl⟩ : ∃ g, f2 = g + 1 := ⟨f2 - 1, by omega⟩
      rfl
  | succ n ih =>
      intro cs hcs f1 f2 h1 h2
      obtain ⟨g1, rfl⟩ : ∃ g, f1 = g + 1 := ⟨f1 - 1, by omega⟩
      obtain ⟨g2, rfl⟩ : ∃ g, f2 = g + 1 := ⟨f2 - 1, by omega⟩
      cases cs with
      | nil => rfl
      | cons c rest =>
          simp only [List.length_cons] at hcs h1 h2
          rw [hydrateF_cons, hydrateF_cons]
          by_cases hb : c = '{' ∧ rest.head? = some '{'
          · rw [if_pos hb, if_pos hb]
            have hrest : rest.length = rest.tail.length + 1 := by
              cases rest with
              | nil => simp at hb
              | cons a tl => simp
            cases hfc : findClose rest.tail with
            | none =>
                exact congrArg (fun r => Except.map (fun tl => '{' :: tl) r)
                  (ih rest (by omega) g1 g2 (by omega) (by omega))
            | some p =>
                obtain ⟨inner, rest2⟩ := p
                have hlen := findClose_some_length rest.tail inner rest2 hfc
                show (match get_context_value context (pyStrip (String.mk inner)) with
                      | Except.error e => (Except.error e : Except Unit (List Char))
                      | Except.ok v => Except.map (fun tl =>
                          (if isNull v then '{' :: '{' :: (inner ++ ['}', '}'])
                           else (pyStr v).toList) ++ tl) (hydrateF context g1 rest2)) =
                    (match get_context_value context (pyStrip (String.mk inner)) with
                      | Except.error e => (Except.error e : Except Unit (List Char))
                      | Except.ok v => Except.map (fun tl =>
                          (if isNull v then '{' :: '{' :: (inner ++ ['}', '}'])
                           else (pyStr v).toList) ++ tl) (hydrateF context g2 rest2))
                cases hgc : get_context_value context (pyStrip (String.mk inner)) with
                | error e => rfl
                | ok v =>
                    exact congrArg (fun r => Except.map (fun tl =>
                      (if isNull v then '{' :: '{' :: (inner ++ ['}', '}'])
                       else (pyStr v).toList) ++ tl) r)
                      (ih rest2 (by omega) g1 g2 (by omega) (by omega))
          · rw [if_neg hb, if_neg hb]
            rw [ih rest (by omega) g1 g2 (by omega) (by omega)]

/-- The scanner copies any brace-free prefix verbatim (and propagates a
resolution error from the rest). -/
theorem hydrateChars_lit (context : Obj) :
    ∀ (s rest : List Char), (∀ c ∈ s, c ≠ '{') →
      hydrateChars context (s ++ rest) =
        (hydrateChars context rest).map (fun tl => s ++ tl) := by
  intro s
  induction s with
  | nil =>
      intro rest _
      show hydrateChars context rest = (hydrateChars context rest).map (fun tl => [] ++ tl)
      cases hydrateChars context rest <;> rfl
  | cons c tl ih =>
      intro rest h
      have hc : c ≠ '{' := h c (List.mem_cons_self c tl)
      have step : hydrateChars context (c :: (tl ++ rest)) =
          (hydrateF context ((tl ++ rest).length + 1) (tl ++ rest)).map (fun l => c :: l) := by
        rw [hydrateChars, List.length_cons, hydrateF_cons, if_neg (fun hand => hc hand.1)]
      rw [List.cons_append, step]
      rw [show hydrateF context ((tl ++ rest).length + 1) (tl ++ rest) =
            hydrateChars context (tl ++ rest) from rfl]
      rw [ih rest (fun x hx => h x (List.mem_cons_of_mem c hx))]
      cases hydrateChars context rest <;> rfl

/-- The scanner turns one placeholder with a clean key into its
hydration (substituted when the stripped key resolves to non-null, kept
verbatim otherwise, the whole scan failing when resolution raises) and
continues after it. -/
theorem hydrateChars_ph (context : Obj) (k rest : List Char)
    (h : ∀ c ∈ k, c ≠ '}' ∧ c ≠ '\n') :
    hydrateChars context ('{' :: '{' :: (k ++ '}' :: '}' :: rest)) =
      (match get_context_value context (pyStrip (String.mk k)) with
       | .error e => .error e
       | .ok v =>
          (hydrateChars context rest).map (fun tl =>
            (if isNull v then '{' :: '{' :: (k ++ ['}', '}'])
             else (pyStr v).toList) ++ tl)) := by
  have hfc := findClose_clean k rest h
  rw [hydrateChars, List.length_cons, hydrateF_cons, if_pos ⟨rfl, rfl⟩]
  rw [show ('{' :: (k ++ '}' :: '}' :: rest)).tail = k ++ '}' :: '}' :: rest from rfl, hfc]
  have hfuel : hydrateF context (('{' :: (k ++ '}' :: '}' :: rest)).length + 1) rest =
      hydrateChars context rest := by
    apply hydrateF_fuel context (('{' :: (k ++ '}' :: '}' :: rest)).length + 1) rest
    · simp only [List.length_cons, List.length_append]; omega
    · simp only [List.length_cons, List.length_append]; omega
    · omega
  exact congrArg (fun r =>
    (match get_context_value context (pyStrip (String.mk k)) with
     | Except.error e => (Except.error e : Except Unit (List Char))
     | Except.ok v =>
        Except.map (fun tl =>
          (if isNull v then '{' :: '{' :: (k ++ ['}', '}'])
           else (pyStr v).toList) ++ tl) r)) hfuel

/-- A segment of a template: literal text or one placeholder
(rendered as the key between double braces). -/
inductive Chunk where
  | lit (s : String) : Chunk
  | ph (k : String) : Chunk
  deriving Repr

/-- Side condition making a segment unambiguous to the lazy regex:
literal text carries no opening brace, and a placeholder key carries no
closing brace and no newline. -/
def ChunkOK : Chunk → Prop
  | .lit s => ∀ c ∈ s.toList, c ≠ '{'
  | .ph k => ∀ c ∈ k.toList, c ≠ '}' ∧ c ≠ '\n'

/-- The template text denoted by a segment. -/
def renderChunk : Chunk → List Char
  | .lit s => s.toList
  | .ph k => '{' :: '{' :: (k.toList ++ ['}', '}'])

/-- The template text denoted by a list of segments. -/
def renderChunks : List Chunk → List Char
  | [] => []
  | ch :: rest => renderChunk ch ++ renderChunks rest

/-- The hydration of one segment: literals pass through; a placeholder
becomes `str(value)` when its stripped key resolves to a non-null
value, stays textually intact when it resolves to null, and fails when
resolution raises. -/
def hydratedChunk (context : Obj) : Chunk → Except Unit (List Char)
  | .lit s => .ok s.toList
  | .ph k =>
      match get_context_value context (pyStrip k) with
      | .error e => .error e
      | .ok v =>
          .ok (if isNull v then '{' :: '{' :: (k.toList ++ ['}', '}'])
               else (pyStr v).toList)

/-- The hydration of a list of segments; a raising segment fails the
whole hydration. -/
def hydratedChunks (context : Obj) : List Chunk → Except Unit (List Char)
  | [] => .ok []
  | ch :: rest =>
      match hydratedChunk context ch with
      | .error e => .error e
      | .ok hd => (hydratedChunks context rest).map (fun tl => hd ++ tl)

/-- Rebuilding a string from its characters. -/
theorem mkToList (s : String) : String.mk s.toList = s := rfl

/-- The scanner hydrates a clean segment list chunk by chunk (including
the failure cases: the scan raises exactly when some chunk does). -/
theorem hydrateChars_chunks (context : Obj) :
    ∀ chunks : List Chunk, (∀ ch ∈ chunks, ChunkOK ch) →
      hydrateChars context (renderChunks chunks) = hydratedChunks context chunks := by
  intro chunks
  induction chunks with
  | nil => intro _; rfl
  | cons ch rest ih =>
      intro h
      have hch := h ch (List.mem_cons_self ch rest)
      have hrest := ih (fun x hx => h x (List.mem_cons_of_mem ch hx))
      cases ch with
      | lit s =>
          simp only [renderChunks, renderChunk, hydratedChunks, hydratedChunk]
          rw [hydrateChars_lit context s.toList (renderChunks rest) hch, hrest]
      | ph k =>
          simp only [renderChunks, renderChunk, hydratedChunks, hydratedChunk]
          rw [show ('{' :: '{' :: (k.toList ++ ['}', '}'])) ++ renderChunks rest =
                '{' :: '{' :: (k.toList ++ '}' :: '}' :: renderChunks rest) by simp]
          rw [hydrateChars_ph context k.toList (renderChunks rest) hch, mkToList]
          cases hgc : get_context_value context (pyStrip k) with
          | error e => rfl
          | ok v => rw [hrest]

/-- Splitting at a separator that does not occur yields one piece. -/
theorem splitOnChar_no_sep (sep : Char) :
    ∀ l : List Char, (∀ c ∈ l, c ≠ sep) → splitOnChar sep l = [l] := by
  intro l
  induction l with
  | nil => intro _; rfl
  | cons c tl ih =>
      intro h
      have hc : c ≠ sep := h c (List.mem_cons_self c tl)
      rw [splitOnChar, ih (fun x hx => h x (List.mem_cons_of_mem c hx))]
      simp [hc]

/-- C8 (amended).  Hydration replaces each placeholder whose stripped
key resolves to a non-null value by the string form of that value,
leaves each placeholder whose key resolves to null textually intact,
and raises exactly when some placeholder's key resolution raises (the
`AttributeError` of the trigger fallback on a non-dict `trigger`
binding propagates out of `re.sub`) — stated over any decomposition of
the template into brace-free literals and clean placeholder keys; it is
a pure function of `(template, context)` — determinism holds by
construction in this embedding, recorded as the congruence conjunct —
and bare-key path resolution falls back from the exact root key to
`context.trigger[key]`, raising on a non-dict `trigger` binding. -/
theorem C8_hydrate_text (context : Obj) :
    (∀ chunks : List Chunk, (∀ ch ∈ chunks, ChunkOK ch) →
      hydrate_text (String.mk (renderChunks chunks)) context =
        (hydratedChunks context chunks).map String.mk) ∧
    (∀ t1 t2 : String, ∀ c1 c2 : Obj, t1 = t2 → c1 = c2 →
      hydrate_text t1 c1 = hydrate_text t2 c2) ∧
    (∀ k : String, k ≠ "" → (∀ c ∈ k.toList, c ≠ '.') →
      get_context_value context k =
        (if isNull (oget context k) then
          match ogetD context "trigger" (Val.dict []) with
          | Val.dict o => Except.ok (oget o k)
          | _ => Except.error ()
         else Except.ok (oget context k))) := by
  refine ⟨?_, ?_, ?_⟩
  · intro chunks h
    show (hydrateChars context (String.mk (renderChunks chunks)).toList).map String.mk = _
    rw [show (String.mk (renderChunks chunks)).toList = renderChunks chunks from rfl,
      hydrateChars_chunks context chunks h]
  · intro t1 t2 c1 c2 ht hc
    rw [ht, hc]
  · intro k hk hnd
    have hbeq : (k == "") = false := by
      simpa using hk
    have hsplit : splitDots k = [k] := by
      rw [splitDots, splitOnChar_no_sep '.' k.toList hnd]
      simp [mkToList]
    by_cases hn : isNull (oget context k) = true
    · simp [get_context_value, hbeq, hsplit, getPath, hn]
    · simp [get_context_value, hbeq, hsplit, getPath, hn]

/-- Witness for `C8_hydrate_text` on the template built from
`lit "Hi "`, `ph "name"`, `lit "!"` against a context binding `name`. -/
theorem C8_hydrate_text_witness :
    (∀ ch ∈ [Chunk.lit "Hi ", Chunk.ph "name", Chunk.lit "!"], ChunkOK ch) ∧
    hydrate_text (String.mk (renderChunks [Chunk.lit "Hi ", Chunk.ph "name", Chunk.lit "!"]))
        [("name", Val.str "Ada")] =
      (hydratedChunks [("name", Val.str "Ada")]
        [Chunk.lit "Hi ", Chunk.ph "name", Chunk.lit "!"]).map String.mk := by
  have hOK : ∀ ch ∈ [Chunk.lit "Hi ", Chunk.ph "name", Chunk.lit "!"], ChunkOK ch := by
    intro ch hch
    simp only [List.mem_cons, List.not_mem_nil, or_false] at hch
    rcases hch with rfl | rfl | rfl
    · show ∀ c ∈ ("Hi " : String).toList, c ≠ '{'
      decide
    · show ∀ c ∈ ("name" : String).toList, c ≠ '}' ∧ c ≠ '\n'
      decide
    · show ∀ c ∈ ("!" : String).toList, c ≠ '{'
      decide
  exact ⟨hOK, (C8_hydrate_text [("name", Val.str "Ada")]).1 _ hOK⟩

/-- C8, counterexample to the claim as stated: the claim quantifies
over every template and context, but at the template
`\x7b\x7bx\x7d\x7d` and the context binding `trigger` to `None` the
program raises `AttributeError` inside the trigger fallback of
`get_context_value` (Python `None.get("x")`) instead of leaving the
unresolved placeholder intact. -/
theorem C8_raise_counterexample :
    hydrate_text "\x7b\x7bx\x7d\x7d" [("trigger", Val.null)] = Except.error () ∧
    get_context_value [("trigger", Val.null)] "x" = Except.error () :=
  ⟨rfl, rfl⟩

/-- Mapping a function that fixes every element of a list is the
identity on it. -/
theorem mapSelf {α : Type} (l : List α) (f : α → α) (h : ∀ x ∈ l, f x = x) : l.map f = l := by
  induction l with
  | nil => rfl
  | cons a tl ih =>
      rw [List.map_cons, h a (List.mem_cons_self a tl),
        ih (fun x hx => h x (List.mem_cons_of_mem a hx))]

/-- Whatever the navigator and delay computation do, the completed-step
tail leaves the step journal as: the fresh step marked `completed` with
the output, everything else untouched. -/
theorem dispatchCompleted_steps (db1 : DB) (execution : ExecM) (node : NodeM) (sid : String)
    (output : Val) (merged : Obj) :
    (dispatchCompleted db1 execution node sid output merged).1.steps =
      db1.steps.map (fun s =>
        if s.id == sid then { s with status := "completed", output_data := output } else s) := by
  rw [dispatchCompleted]
  split
  · rfl
  · split
    · rfl
    · split
      · rfl
      · rfl

/-- Appending a fresh step and then updating by its id rewrites only the
new step. -/
theorem steps_append_update (steps : List StepM) (st : StepM) (f : StepM → StepM)
    (hfresh : ∀ s ∈ steps, f s = s) :
    (steps ++ [st]).map f = steps ++ [f st] := by
  rw [List.map_append, mapSelf steps f hfresh]
  rfl

/-- C3 (amended).  A consumed task whose execution or node is missing is
dropped without any effect; when both exist, a step is always created —
the execution's status is not consulted, so completed/failed executions
are processed like any other (the fresh-id hypothesis says the generated
step id is new, as primary keys are). -/
theorem C3_task_drop (db : DB) (execution_id node_id : String) (execResult : Except String Val)
    (hfresh : ∀ s ∈ db.steps, s.id ≠ freshId "step" db.nextId) :
    ((db.nodes.find? (fun n => n.id == node_id) = none ∨
        db.executions.find? (fun e => e.id == execution_id) = none) →
      process_node_async db execution_id node_id execResult = (db, [])) ∧
    (∀ (node : NodeM) (execution : ExecM),
      db.nodes.find? (fun n => n.id == node_id) = some node →
      db.executions.find? (fun e => e.id == execution_id) = some execution →
      ∃ st : StepM,
        (process_node_async db execution_id node_id execResult).1.steps = db.steps ++ [st] ∧
        st.execution_id = execution.id ∧ st.node_id = node.id ∧
        st.input_data = execution.context_data) := by
  have hstep : ∀ (output : Val),
      ∀ s ∈ db.steps,
        (if s.id == freshId "step" db.nextId then
          { s with status := "completed", output_data := output } else s) = s := by
    intro output s hs
    have := hfresh s hs
    simp [this]
  have hsusp : ∀ s ∈ db.steps,
      (if s.id == freshId "step" db.nextId then { s with status := "suspended" } else s) = s := by
    intro s hs
    have := hfresh s hs
    simp [this]
  constructor
  · intro h
    cases hn : db.nodes.find? (fun n => n.id == node_id) with
    | none => simp [process_node_async, hn]
    | some node =>
        cases he : db.executions.find? (fun e => e.id == execution_id) with
        | none => simp [process_node_async, hn, he]
        | some execution =>
            rcases h with h | h
            · rw [hn] at h; exact Option.noConfusion h
            · rw [he] at h; exact Option.noConfusion h
  · intro node execution hn he
    cases execResult with
    | error e =>
        simp only [process_node_async, hn, he]
        exact ⟨_, rfl, rfl, rfl, rfl⟩
    | ok output =>
        cases output with
        | dict o =>
            by_cases hsig : vbeq (oget o "orchestration_signal") (Val.str "suspend") = true
            · simp only [process_node_async, hn, he]
              rw [if_pos hsig]
              refine ⟨{ id := freshId "step" db.nextId, execution_id := execution.id, node_id := node.id, status := "suspended", input_data := execution.context_data, output_data := Val.null, error := none }, ?_, rfl, rfl, rfl⟩
              show ((db.steps ++ [_]).map _) = _
              rw [steps_append_update db.steps _ _ hsusp]
              simp
            · simp only [process_node_async, hn, he]
              rw [if_neg hsig, dispatchCompleted_steps]
              refine ⟨{ id := freshId "step" db.nextId, execution_id := execution.id, node_id := node.id, status := "completed", input_data := execution.context_data, output_data := Val.dict o, error := none }, ?_, rfl, rfl, rfl⟩
              show ((db.steps ++ [_]).map _) = _
              rw [steps_append_update db.steps _ _ (hstep (Val.dict o))]
              simp
        | null =>
            simp only [process_node_async, hn, he]
            rw [dispatchCompleted_steps]
            refine ⟨{ id := freshId "step" db.nextId, execution_id := execution.id, node_id := node.id, status := "completed", input_data := execution.context_data, output_data := Val.null, error := none }, ?_, rfl, rfl, rfl⟩
            show ((db.steps ++ [_]).map _) = _
            rw [steps_append_update db.steps _ _ (hstep Val.null)]
            simp
        | bool b =>
            simp only [process_node_async, hn, he]
            rw [dispatchCompleted_steps]
            refine ⟨{ id := freshId "step" db.nextId, execution_id := execution.id, node_id := node.id, status := "completed", input_data := execution.context_data, output_data := Val.bool b, error := none }, ?_, rfl, rfl, rfl⟩
            show ((db.steps ++ [_]).map _) = _
            rw [steps_append_update db.steps _ _ (hstep (Val.bool b))]
            simp
        | int n =>
            simp only [process_node_async, hn, he]
            rw [dispatchCompleted_steps]
            refine ⟨{ id := freshId "step" db.nextId, execution_id := execution.id, node_id := node.id, status := "completed", input_data := execution.context_data, output_data := Val.int n, error := none }, ?_, rfl, rfl, rfl⟩
            show ((db.steps ++ [_]).map _) = _
            rw [steps_append_update db.steps _ _ (hstep (Val.int n))]
            simp
        | str t =>
            simp only [process_node_async, hn, he]
            rw [dispatchCompleted_steps]
            refine ⟨{ id := freshId "step" db.nextId, execution_id := execution.id, node_id := node.id, status := "completed", input_data := execution.context_data, output_data := Val.str t, error := none }, ?_, rfl, rfl, rfl⟩
            show ((db.steps ++ [_]).map _) = _
            rw [steps_append_update db.steps _ _ (hstep (Val.str t))]
            simp
        | list xs =>
            simp only [process_node_async, hn, he]
            rw [dispatchCompleted_steps]
            refine ⟨{ id := freshId "step" db.nextId, execution_id := execution.id, node_id := node.id, status := "completed", input_data := execution.context_data, output_data := Val.list xs, error := none }, ?_, rfl, rfl, rfl⟩
            show ((db.steps ++ [_]).map _) = _
            rw [steps_append_update db.steps _ _ (hstep (Val.list xs))]
            simp

/-- A start node of workflow `w1`. -/
def nodeStart1 : NodeM := { id := "n1", workflow_id := "w1", type := some "start", config := [] }

/-- A terminal (completed) execution. -/
def execCompleted1 : ExecM :=
  { id := "e1", workflow_id := "w1", business_id := "b", status := "completed",
    trigger_event := Val.dict [], context_data := [("trigger", Val.dict [])],
    resume_payload := Val.null }

/-- A store holding only the terminal execution and its node. -/
def dbTerminal : DB :=
  { workflows := [], nodes := [nodeStart1], edges := [], executions := [execCompleted1],
    steps := [], nextId := 0 }

/-- A running execution triggered by web user `u1`. -/
def execRunning1 : ExecM :=
  { id := "e1", workflow_id := "w1", business_id := "b", status := "running",
    trigger_event := Val.dict [("user_id", Val.str "u1")],
    context_data := [("trigger", Val.dict [("user_id", Val.str "u1")]), ("business_id", Val.str "b")],
    resume_payload := Val.null }

/-- A store holding the running execution and its node. -/
def dbRunning : DB :=
  { workflows := [], nodes := [nodeStart1], edges := [], executions := [execRunning1],
    steps := [], nextId := 0 }

/-- C3, counterexample to the terminal-status part of the claim: the
execution is `completed`, yet the dispatcher creates (and completes) a
step instead of dropping the task. -/
theorem C3_terminal_counterexample :
    execCompleted1.status = "completed" ∧
    ((process_node_async dbTerminal "e1" "n1"
        (Except.ok (Val.dict [("status", Val.str "started")]))).1.steps).map
      (fun s => s.status) = ["completed"] :=
  ⟨rfl, rfl⟩

/-- Witness for `C3_task_drop`: a task naming a node the store does not
have is dropped without effect. -/
theorem C3_task_drop_witness :
    dbTerminal.nodes.find? (fun n => n.id == "ghost") = none ∧
    process_node_async dbTerminal "e1" "ghost" (Except.ok Val.null) = (dbTerminal, []) := by
  refine ⟨rfl, ?_⟩
  exact (C3_task_drop dbTerminal "e1" "ghost" (Except.ok Val.null)
    (fun s hs => absurd hs (List.not_mem_nil s))).1 (Or.inl rfl)

/-- C5 (amended).  When the executor raises, the dispatcher only logs:
the freshly created step stays in status `running` with no recorded
error, the execution (status and context) is untouched, and nothing is
enqueued. -/
theorem C5_executor_exception (db : DB) (execution_id node_id emsg : String)
    (node : NodeM) (execution : ExecM)
    (hn : db.nodes.find? (fun n => n.id == node_id) = some node)
    (he : db.executions.find? (fun e => e.id == execution_id) = some execution) :
    process_node_async db execution_id node_id (Except.error emsg) =
      ({ db with
          steps := db.steps ++ [{ id := freshId "step" db.nextId, execution_id := execution.id, node_id := node.id, status := "running", input_data := execution.context_data, output_data := Val.null, error := none }],
          nextId := db.nextId + 1 }, []) := by
  simp only [process_node_async, hn, he]

/-- C5, counterexample to the claim as stated: after an executor
exception the step's status is `running` — not `failed` — and its
`error` field is empty (the mark-failed statements in the source are
commented out). -/
theorem C5_exception_counterexample :
    (process_node_async dbRunning "e1" "n1" (Except.error "boom")).1.steps.map
        (fun s => (s.status, s.error)) = [("running", none)] ∧
    (process_node_async dbRunning "e1" "n1" (Except.error "boom")).1.executions =
      [execRunning1] :=
  ⟨rfl, rfl⟩

/-- Witness for `C5_executor_exception`. -/
theorem C5_executor_exception_witness :
    dbRunning.nodes.find? (fun n => n.id == "n1") = some nodeStart1 ∧
    process_node_async dbRunning "e1" "n1" (Except.error "boom") =
      ({ dbRunning with
          steps := [{ id := "step0", execution_id := "e1", node_id := "n1", status := "running", input_data := execRunning1.context_data, output_data := Val.null, error := none }],
          nextId := 1 }, []) := by
  refine ⟨rfl, ?_⟩
  exact C5_executor_exception dbRunning "e1" "n1" "boom" nodeStart1 execRunning1 rfl rfl

/-- An appointment-booking node. -/
def apptNode1 : NodeM :=
  { id := "n1", workflow_id := "w1", type := some "appointment_booking", config := [] }

/-- A store holding the running execution at the appointment node. -/
def dbAppt : DB :=
  { workflows := [], nodes := [apptNode1], edges := [], executions := [execRunning1],
    steps := [], nextId := 0 }

/-- The propose-phase output of the appointment executor: a suspend
signal carrying `pending_slots`. -/
def suspendOutput : Obj :=
  [("orchestration_signal", Val.str "suspend"), ("resume_node_id", Val.str "n1"),
   ("pending_slots", Val.list [Val.dict [("start", Val.str "1970-01-02T09:00:00"), ("display", Val.str "Friday, Jan 02 at 09:00 AM")]]),
   ("ai_output", Val.str "Which slot works for you?")]

/-- C2, evaluation at the failing input: consuming a suspend output, the
dispatcher stores only `resume_payload` — the execution's context is
persisted unchanged, so the non-signal keys (`pending_slots`,
`ai_output`) are lost even though the output carries them. -/
theorem C2_suspend_discards_output :
    process_node_async dbAppt "e1" "n1" (Except.ok (Val.dict suspendOutput)) =
      ({ dbAppt with
          steps := [{ id := "step0", execution_id := "e1", node_id := "n1", status := "suspended", input_data := execRunning1.context_data, output_data := Val.null, error := none }],
          executions := [{ execRunning1 with status := "suspended", resume_payload := Val.dict [("node_id", Val.str "n1"), ("step_id", Val.str "step0")] }],
          nextId := 1 }, []) ∧
    olookup execRunning1.context_data "pending_slots" = none ∧
    oget suspendOutput "pending_slots" ≠ Val.null := by
  refine ⟨rfl, rfl, ?_⟩
  intro h
  exact Val.noConfusion h

/-- Lookup in a merged context: the step output shadows, everything else
falls through to the old context. -/
theorem olookup_omerge (ctx out : Obj) (k : String) :
    olookup (omerge ctx out) k =
      (match olookup out k with
       | some v => some v
       | none => olookup ctx k) := by
  induction out with
  | nil => simp [olookup, omerge]
  | cons kv rest ih =>
      by_cases h : (kv.1 == k) = true
      · simp [olookup, omerge, List.find?, h]
      · simp only [olookup, omerge, List.cons_append, List.find?, h] at ih ⊢
        exact ih

/-- Every execution present after the trigger-matching loop either was
already in the store or was created with the context
`\x7b"trigger": trigger_data, "business_id": business_id\x7d`. -/
theorem triggerMatchGo_exec (business_id : String) (trigger_data : Obj) :
    ∀ (wfs : List WorkflowM) (db : DB) (tasks : List TaskM) (execs : List String)
      (db2 : DB) (t2 : List TaskM) (e2 : List String),
      triggerMatchGo business_id trigger_data wfs db tasks execs = Except.ok (db2, t2, e2) →
      ∀ e ∈ db2.executions, e ∈ db.executions ∨
        (oget e.context_data "trigger" = Val.dict trigger_data ∧
         oget e.context_data "business_id" = Val.str business_id) := by
  intro wfs
  induction wfs with
  | nil =>
      intro db tasks execs db2 t2 e2 h e he
      obtain ⟨rfl, rfl, rfl⟩ : db = db2 ∧ tasks = t2 ∧ execs = e2 := by
        simpa [triggerMatchGo] using h
      exact Or.inl he
  | cons wf rest ih =>
      intro db tasks execs db2 t2 e2 h e he
      simp only [triggerMatchGo] at h
      cases hm : check_trigger_match wf.trigger_config trigger_data with
      | error u => rw [hm] at h; simp [Bind.bind, Except.bind] at h
      | ok m =>
          rw [hm] at h
          simp only [Bind.bind, Except.bind] at h
          cases m with
          | false => exact ih db tasks execs db2 t2 e2 h e he
          | true =>
              simp only [Bool.not_true, Bool.false_eq_true, if_false] at h
              cases hs : startNodeOf db.nodes wf.id with
              | error u => rw [hs] at h; simp [Except.bind] at h
              | ok sn =>
                  rw [hs] at h
                  simp only [Except.bind] at h
                  have key : ∀ (tasks2 : List TaskM) (execs2 : List String),
                      triggerMatchGo business_id trigger_data rest
                        { db with
                          executions := db.executions ++
                            [{ id := freshId "exec" db.nextId, workflow_id := wf.id,
                               business_id := business_id, status := "running",
                               trigger_event := Val.dict trigger_data,
                               context_data := [("trigger", Val.dict trigger_data), ("business_id", Val.str business_id)],
                               resume_payload := Val.null }],
                          nextId := db.nextId + 1 } tasks2 execs2 = Except.ok (db2, t2, e2) →
                      e ∈ db2.executions →
                      e ∈ db.executions ∨
                        (oget e.context_data "trigger" = Val.dict trigger_data ∧
                         oget e.context_data "business_id" = Val.str business_id) := by
                    intro tasks2 execs2 hgo hee
                    rcases ih _ tasks2 execs2 db2 t2 e2 hgo e hee with hin | hprop
                    · rcases List.mem_append.mp hin with hold | hnew
                      · exact Or.inl hold
                      · right
                        rcases List.mem_singleton.mp hnew with rfl
                        exact ⟨rfl, rfl⟩
                    · exact Or.inr hprop
                  cases sn with
                  | some n => exact key _ _ h he
                  | none => exact key _ _ h he

/-- C7 (amended).  Executions created by the trigger-matching path start
with context `\x7btrigger, business_id\x7d`; executions created by the
manual path (`trigger_specific_workflow`) start with context
`\x7btrigger\x7d` only — no tenant key; and a step's context merge
preserves the presence of every existing key, and its value whenever the
step output does not itself bind that key. -/
theorem C7_initial_context (db : DB) (business_id trigger_type workflow_id : String)
    (trigger_data : Obj) :
    (∀ (db2 : DB) (t2 : List TaskM) (e2 : List String),
      triggerMatchPhase db business_id trigger_type trigger_data = Except.ok (db2, t2, e2) →
      ∀ e ∈ db2.executions, e ∈ db.executions ∨
        (oget e.context_data "trigger" = Val.dict trigger_data ∧
         oget e.context_data "business_id" = Val.str business_id)) ∧
    (∀ (db2 : DB) (t2 : List TaskM) (r : Option String),
      trigger_specific_workflow db business_id workflow_id trigger_data = Except.ok (db2, t2, r) →
      ∀ e ∈ db2.executions, e ∈ db.executions ∨
        (oget e.context_data "trigger" = Val.dict trigger_data ∧
         olookup e.context_data "business_id" = none)) ∧
    (∀ (ctx out : Obj) (k : String), (olookup ctx k).isSome → (olookup (omerge ctx out) k).isSome) ∧
    (∀ (ctx out : Obj) (k : String), olookup out k = none →
      olookup (omerge ctx out) k = olookup ctx k) := by
  refine ⟨?_, ?_, ?_, ?_⟩
  · intro db2 t2 e2 h e he
    simp only [triggerMatchPhase] at h
    exact triggerMatchGo_exec business_id trigger_data _ db [] [] db2 t2 e2 h e he
  · intro db2 t2 r h e he
    simp only [trigger_specific_workflow] at h
    cases hw : db.workflows.find? (fun w => w.id == workflow_id) with
    | none =>
        rw [hw] at h
        obtain ⟨rfl, rfl, rfl⟩ : db = db2 ∧ ([] : List TaskM) = t2 ∧ (none : Option String) = r := by
          simpa using h
        exact Or.inl he
    | some wf =>
        simp only [hw] at h
        by_cases hb : (wf.business_id != business_id) = true
        · rw [if_pos hb] at h
          obtain ⟨rfl, rfl, rfl⟩ : db = db2 ∧ ([] : List TaskM) = t2 ∧ (none : Option String) = r := by
            simpa using h
          exact Or.inl he
        · rw [if_neg hb] at h
          cases hs : startNodeOf db.nodes wf.id with
          | error u =>
              simp only [hs, Bind.bind, Except.bind] at h
              exact Except.noConfusion h
          | ok sn =>
              simp only [hs, Bind.bind, Except.bind] at h
              cases sn with
              | none =>
                  obtain ⟨rfl, rfl, rfl⟩ : db = db2 ∧ ([] : List TaskM) = t2 ∧ (none : Option String) = r := by
                    simpa using h
                  exact Or.inl he
              | some n =>
                  obtain ⟨hdb, hrest⟩ : ({ db with
                      executions := db.executions ++
                        [{ id := freshId "exec" db.nextId, workflow_id := wf.id,
                           business_id := business_id, status := "running",
                           trigger_event := Val.dict trigger_data,
                           context_data := [("trigger", Val.dict trigger_data)],
                           resume_payload := Val.null }],
                      nextId := db.nextId + 1 } : DB) = db2 ∧
                      ([⟨freshId "exec" db.nextId, n.id, 0⟩] : List TaskM) = t2 ∧
                      (some (freshId "exec" db.nextId) : Option String) = r := by
                    simpa using h
                  subst hdb
                  rcases List.mem_append.mp he with hold | hnew
                  · exact Or.inl hold
                  · right
                    rcases List.mem_singleton.mp hnew with rfl
                    exact ⟨rfl, rfl⟩
  · intro ctx out k hsome
    rw [olookup_omerge]
    cases ho : olookup out k with
    | none => simpa using hsome
    | some v => simp
  · intro ctx out k hnone
    rw [olookup_omerge, hnone]

/-- A workflow row for the manual-trigger fixtures. -/
def wfManual : WorkflowM :=
  { id := "w1", business_id := "b", name := Val.str "W", is_active := true,
    trigger_type := some "keyword", trigger_config := [] }

/-- A store with one workflow, its start node and no executions. -/
def dbManual : DB :=
  { workflows := [wfManual], nodes := [nodeStart1], edges := [], executions := [],
    steps := [], nextId := 0 }

/-- C7, counterexample to the claim as stated: the manual trigger path
creates its execution with context `\x7btrigger\x7d` only — the tenant
key `business_id` is absent — and a later merge whose output binds
`trigger` replaces the original event. -/
theorem C7_counterexample :
    trigger_specific_workflow dbManual "b" "w1" [("user_id", Val.str "u1")] =
      Except.ok ({ dbManual with executions := [{ id := "exec0", workflow_id := "w1", business_id := "b", status := "running", trigger_event := Val.dict [("user_id", Val.str "u1")], context_data := [("trigger", Val.dict [("user_id", Val.str "u1")])], resume_payload := Val.null }], nextId := 1 }, [⟨"exec0", "n1", 0⟩], some "exec0") ∧
    olookup [("trigger", Val.dict [("user_id", Val.str "u1")])] "business_id" = none ∧
    oget (omerge [("trigger", Val.dict [("user_id", Val.str "u1")]), ("business_id", Val.str "b")]
      [("trigger", Val.int 0)]) "trigger" = Val.int 0 :=
  ⟨rfl, rfl, rfl⟩

/-- Witness for `C7_initial_context`: the manual path's execution has no
`business_id` key, and an untouched key survives a merge. -/
theorem C7_initial_context_witness :
    (oget [("trigger", Val.dict [("user_id", Val.str "u1")])] "trigger" =
        Val.dict [("user_id", Val.str "u1")] ∧
      olookup [("trigger", Val.dict [("user_id", Val.str "u1")])] "business_id" = none) ∧
    olookup (omerge [("x", Val.int 1)] [("y", Val.int 2)]) "x" = olookup [("x", Val.int 1)] "x" := by
  constructor
  · have h := (C7_initial_context dbManual "b" "keyword" "w1" [("user_id", Val.str "u1")]).2.1
      _ _ _ rfl
        { id := "exec0", workflow_id := "w1", business_id := "b", status := "running",
          trigger_event := Val.dict [("user_id", Val.str "u1")],
          context_data := [("trigger", Val.dict [("user_id", Val.str "u1")])],
          resume_payload := Val.null }
        (by simp [dbManual]; exact ⟨rfl, rfl⟩)
    exact h.resolve_left (by simp [dbManual])
  · exact (C7_initial_context dbManual "b" "keyword" "w1" [("user_id", Val.str "u1")]).2.2.2
      [("x", Val.int 1)] [("y", Val.int 2)] "x" rfl

/-- C10.  When arbitration finds a suspended execution for the inbound
participant whose `resume_payload` is `null` or lacks a `node_id`, the
execution is still set `running` with `resume_payload` cleared and the
merge committed, `None` is returned with nothing enqueued, and the
caller falls through to trigger matching on the updated store. -/
theorem C10_resume_clears_suspension (db : DB) (business_id : String) (trigger_data : Obj)
    (ex : ExecM)
    (htarget : resumeTargetOf db business_id trigger_data = Except.ok (some ex))
    (hpayload : ex.resume_payload = Val.null ∨
      ∃ rp : Obj, ex.resume_payload = Val.dict rp ∧ oget rp "node_id" = Val.null) :
    check_and_resume_execution db business_id trigger_data =
      Except.ok ({ db with executions := db.executions.map (fun e => if e.id == ex.id then resumedExecUpdate ex trigger_data else e) }, [], none) ∧
    trigger_workflow db business_id "message_created" trigger_data =
      triggerMatchPhase ({ db with executions := db.executions.map (fun e => if e.id == ex.id then resumedExecUpdate ex trigger_data else e) }) business_id "message_created" trigger_data := by
  have hnid : resumeNodeIdOf ex = Except.ok Val.null := by
    rcases hpayload with hnull | ⟨rp, hdict, hnode⟩
    · simp [resumeNodeIdOf, hnull, truthy]
    · rw [resumeNodeIdOf, hdict]
      by_cases hrp : truthy (Val.dict rp) = true
      · rw [if_pos hrp]
        show Except.ok (oget rp "node_id") = Except.ok Val.null
        rw [hnode]
      · rw [if_neg hrp]
  have hcheck : check_and_resume_execution db business_id trigger_data =
      Except.ok ({ db with executions := db.executions.map (fun e => if e.id == ex.id then resumedExecUpdate ex trigger_data else e) }, [], none) := by
    simp [check_and_resume_execution, Bind.bind, Except.bind, htarget, hnid, truthy]
  refine ⟨hcheck, ?_⟩
  simp only [trigger_workflow, beq_self_eq_true, if_true, Bind.bind, Except.bind, hcheck]
  cases hp : triggerMatchPhase ({ db with executions := db.executions.map (fun e => if e.id == ex.id then resumedExecUpdate ex trigger_data else e) }) business_id "message_created" trigger_data with
  | error u => simp
  | ok t => obtain ⟨a, b, c⟩ := t; simp

/-- C1 (amended).  For a `message_created` event: when a suspended
execution of the tenant matches the inbound participant and its
`resume_payload` carries a truthy `node_id` naming an existing node,
arbitration resumes exactly that (first matching) execution — merging
`latest_reply`/`latest_trigger`, setting it `running`, clearing
`resume_payload`, enqueuing the successors of the saved node against
the synthetic output `\x7b"user_reply": body\x7d` — and returns exactly
that one id, creating no other execution; when no suspended execution
matches, the call is exactly the trigger-matching phase. -/
theorem C1_resume_arbitration (db : DB) (business_id : String) (trigger_data : Obj) :
    (∀ (ex : ExecM) (rp : Obj) (nid : String) (node : NodeM) (nexts : List NodeM),
      resumeTargetOf db business_id trigger_data = Except.ok (some ex) →
      ex.resume_payload = Val.dict rp →
      oget rp "node_id" = Val.str nid →
      nid ≠ "" →
      db.nodes.find? (fun n => vbeq (Val.str n.id) (Val.str nid)) = some node →
      get_next_nodes db.nodes db.edges node (Val.dict [("user_reply", messageBody trigger_data)]) =
        Except.ok nexts →
      trigger_workflow db business_id "message_created" trigger_data =
        Except.ok ({ db with executions := db.executions.map (fun e => if e.id == ex.id then resumedExecUpdate ex trigger_data else e) }, nexts.map (fun n => ⟨ex.id, n.id, 0⟩), [ex.id])) ∧
    (resumeTargetOf db business_id trigger_data = Except.ok none →
      trigger_workflow db business_id "message_created" trigger_data =
        triggerMatchPhase db business_id "message_created" trigger_data) := by
  constructor
  · intro ex rp nid node nexts ht hrp hnode hnid hfind hnext
    have hrpne : rp ≠ [] := by
      intro h0
      rw [h0] at hnode
      simp [oget, ogetD, olookup] at hnode
    have htr : truthy (Val.dict rp) = true := by
      cases rp with
      | nil => exact absurd rfl hrpne
      | cons kv rest => simp [truthy]
    have hnodeid : resumeNodeIdOf ex = Except.ok (Val.str nid) := by
      rw [resumeNodeIdOf, hrp, if_pos htr]
      show Except.ok (oget rp "node_id") = Except.ok (Val.str nid)
      rw [hnode]
    have hcheck : check_and_resume_execution db business_id trigger_data =
        Except.ok ({ db with executions := db.executions.map (fun e => if e.id == ex.id then resumedExecUpdate ex trigger_data else e) }, nexts.map (fun n => ⟨ex.id, n.id, 0⟩), some ex.id) := by
      simp [check_and_resume_execution, Bind.bind, Except.bind, ht, hnodeid, truthy, hnid,
        hfind, hnext]
    simp only [trigger_workflow, beq_self_eq_true, if_true, Bind.bind, Except.bind, hcheck]
  · intro ht
    have hcheck : check_and_resume_execution db business_id trigger_data =
        Except.ok (db, [], none) := by
      simp [check_and_resume_execution, Bind.bind, Except.bind, ht]
    simp only [trigger_workflow, beq_self_eq_true, if_true, Bind.bind, Except.bind, hcheck]
    cases hp : triggerMatchPhase db business_id "message_created" trigger_data with
    | error u => simp
    | ok t => obtain ⟨a, b, c⟩ := t; simp

/-- A suspended execution of user `u1` whose `resume_payload` was never
set. -/
def execSuspNoPayload : ExecM :=
  { id := "e1", workflow_id := "w1", business_id := "b", status := "suspended",
    trigger_event := Val.dict [("user_id", Val.str "u1")],
    context_data := [("trigger", Val.dict [("user_id", Val.str "u1")]), ("business_id", Val.str "b")],
    resume_payload := Val.null }

/-- The inbound reply of user `u1`. -/
def tdU1 : Obj := [("user_id", Val.str "u1"), ("message_body", Val.str "hello")]

/-- A catch-all keyword workflow of the tenant with its start node. -/
def wfKeywordAll : WorkflowM :=
  { id := "w2", business_id := "b", name := Val.str "W2", is_active := true,
    trigger_type := some "keyword", trigger_config := [] }

/-- Start node of `w2`. -/
def nodeStart2 : NodeM := { id := "n2", workflow_id := "w2", type := some "start", config := [] }

/-- Store with the payload-less suspended execution and a matching
workflow. -/
def dbA : DB :=
  { workflows := [wfKeywordAll], nodes := [nodeStart2], edges := [],
    executions := [execSuspNoPayload], steps := [], nextId := 0 }

/-- The execution the matching phase creates in `dbA`. -/
def newExecA : ExecM :=
  { id := "exec0", workflow_id := "w2", business_id := "b", status := "running",
    trigger_event := Val.dict tdU1,
    context_data := [("trigger", Val.dict tdU1), ("business_id", Val.str "b")],
    resume_payload := Val.null }

/-- A suspended execution whose `resume_payload` names a node that no
longer exists. -/
def execSuspGhost : ExecM :=
  { id := "e1", workflow_id := "w1", business_id := "b", status := "suspended",
    trigger_event := Val.dict [("user_id", Val.str "u1")],
    context_data := [("trigger", Val.dict [("user_id", Val.str "u1")]), ("business_id", Val.str "b")],
    resume_payload := Val.dict [("node_id", Val.str "ghost")] }

/-- A successor node reachable from the vanished node. -/
def nodeAction2 : NodeM := { id := "n2", workflow_id := "w1", type := some "action", config := [] }

/-- The dangling edge out of the vanished node. -/
def edgeGhost : EdgeM :=
  { workflow_id := "w1", source_id := "ghost", target_id := "n2", condition_value := none }

/-- Store for the dangling-node scenario. -/
def dbB : DB :=
  { workflows := [], nodes := [nodeAction2], edges := [edgeGhost],
    executions := [execSuspGhost], steps := [], nextId := 0 }

/-- C1, counterexample to the claim as stated.  First scenario: a
suspended execution of the tenant matches the inbound participant, yet —
its `resume_payload` being null — the call starts and returns a brand
new execution `exec0` instead of returning only `e1`.  Second scenario:
the matching suspended execution's `resume_payload` names a node with no
row; its outgoing edge to the existing node `n2` is never enqueued
although `[e1]` is returned. -/
theorem C1_counterexample :
    resumeTargetOf dbA "b" tdU1 = Except.ok (some execSuspNoPayload) ∧
    trigger_workflow dbA "b" "message_created" tdU1 =
      Except.ok ({ dbA with executions := [resumedExecUpdate execSuspNoPayload tdU1, newExecA], nextId := 1 }, [⟨"exec0", "n2", 0⟩], ["exec0"]) ∧
    resumeTargetOf dbB "b" tdU1 = Except.ok (some execSuspGhost) ∧
    dbB.edges = [edgeGhost] ∧
    trigger_workflow dbB "b" "message_created" tdU1 =
      Except.ok ({ dbB with executions := [resumedExecUpdate execSuspGhost tdU1] }, [], ["e1"]) :=
  ⟨rfl, rfl, rfl, rfl, rfl⟩

/-- A suspended execution whose payload names the existing wait node
`n1`. -/
def execSuspN1 : ExecM :=
  { id := "e1", workflow_id := "w1", business_id := "b", status := "suspended",
    trigger_event := Val.dict [("user_id", Val.str "u1")],
    context_data := [("trigger", Val.dict [("user_id", Val.str "u1")]), ("business_id", Val.str "b")],
    resume_payload := Val.dict [("node_id", Val.str "n1")] }

/-- The wait node the suspension points at. -/
def nodeWait1 : NodeM := { id := "n1", workflow_id := "w1", type := some "wait_for_reply", config := [] }

/-- The unconditional edge from the wait node to its successor. -/
def edgeN1N2 : EdgeM :=
  { workflow_id := "w1", source_id := "n1", target_id := "n2", condition_value := none }

/-- Store for the successful-resume scenario. -/
def dbC : DB :=
  { workflows := [], nodes := [nodeWait1, nodeAction2], edges := [edgeN1N2],
    executions := [execSuspN1], steps := [], nextId := 0 }

/-- Witness for `C1_resume_arbitration`: the suspended execution of
`u1` resumes, the wait node's successor is dispatched and exactly
`["e1"]` is returned. -/
theorem C1_resume_arbitration_witness :
    resumeTargetOf dbC "b" tdU1 = Except.ok (some execSuspN1) ∧
    trigger_workflow dbC "b" "message_created" tdU1 =
      Except.ok ({ dbC with executions := [resumedExecUpdate execSuspN1 tdU1] }, [⟨"e1", "n2", 0⟩], ["e1"]) := by
  refine ⟨rfl, ?_⟩
  exact (C1_resume_arbitration dbC "b" tdU1).1 execSuspN1 [("node_id", Val.str "n1")] "n1"
    nodeWait1 [nodeAction2] rfl rfl rfl (by decide) rfl rfl

/-- Witness for `C10_resume_clears_suspension` on the payload-less
suspension of `dbA`. -/
theorem C10_resume_clears_suspension_witness :
    resumeTargetOf dbA "b" tdU1 = Except.ok (some execSuspNoPayload) ∧
    check_and_resume_execution dbA "b" tdU1 =
      Except.ok ({ dbA with executions := [resumedExecUpdate execSuspNoPayload tdU1] }, [], none) := by
  refine ⟨rfl, ?_⟩
  exact (C10_resume_clears_suspension dbA "b" tdU1 execSuspNoPayload rfl (Or.inl rfl)).1

/-- The explicit id of a node entry of the definition payload (empty for
entries outside the modelled fragment). -/
def nodeIdOf : Val → String
  | .dict nd => match olookup nd "id" with | some (.str s) => s | _ => ""
  | _ => ""

/-- The `WorkflowNode` row `create_workflow` builds from one
explicit-id node entry. -/
def nodeRowOf (workflow_id : String) (v : Val) : NodeM :=
  { id := nodeIdOf v, workflow_id := workflow_id,
    type := (match v with
      | .dict nd => (match olookup nd "type" with | some (.str s) => some s | _ => none)
      | _ => none),
    config := (match v with | .dict nd => asObjD (ogetD nd "config" (.dict [])) | _ => []) }

/-- The `WorkflowEdge` rows the edge loop keeps: exactly the entries
both of whose endpoints are ids of the definition's nodes. -/
def edgeRowsOf (workflow_id : String) (ids : List String) : List Val → List EdgeM
  | [] => []
  | v :: rest =>
      match v with
      | .dict ed =>
          (match pyOr (oget ed "source") (oget ed "source_id"),
                 pyOr (oget ed "target") (oget ed "target_id") with
           | .str s, .str t =>
              if ids.contains s && ids.contains t then
                { workflow_id := workflow_id, source_id := s, target_id := t,
                  condition_value :=
                    match pyOr (oget ed "condition") (oget ed "condition_value") with
                    | .str c => some c
                    | _ => none } :: edgeRowsOf workflow_id ids rest
              else edgeRowsOf workflow_id ids rest
           | _, _ => edgeRowsOf workflow_id ids rest)
      | _ => edgeRowsOf workflow_id ids rest

/-- The node loop on entries with explicit string ids: no fresh id is
drawn and the rows are `nodeRowOf` images. -/
theorem createNodes_explicit (workflow_id : String) :
    ∀ (l : List Val) (k : ℕ),
      (∀ v ∈ l, ∃ nd, v = Val.dict nd ∧ ∃ s, olookup nd "id" = some (Val.str s)) →
      createNodes workflow_id l k = Except.ok (l.map (nodeRowOf workflow_id), k) := by
  intro l
  induction l with
  | nil => intro k _; rfl
  | cons v rest ih =>
      intro k h
      obtain ⟨nd, rfl, s, hid⟩ := h _ (List.mem_cons_self _ rest)
      have hrest := ih k (fun x hx => h x (List.mem_cons_of_mem _ hx))
      simp [createNodes, hid, hrest, Bind.bind, Except.bind, nodeRowOf, nodeIdOf]

/-- The edge loop on dict entries never raises and keeps exactly the
`edgeRowsOf` rows. -/
theorem createEdges_explicit (workflow_id : String) (ids : List String) :
    ∀ (l : List Val),
      (∀ v ∈ l, ∃ ed, v = Val.dict ed) →
      createEdges workflow_id ids l = Except.ok (edgeRowsOf workflow_id ids l) := by
  intro l
  induction l with
  | nil => intro _; rfl
  | cons v rest ih =>
      intro h
      obtain ⟨ed, rfl⟩ := h _ (List.mem_cons_self _ rest)
      have hrest := ih (fun x hx => h x (List.mem_cons_of_mem _ hx))
      cases hsv : pyOr (oget ed "source") (oget ed "source_id") <;>
        cases htv : pyOr (oget ed "target") (oget ed "target_id") <;>
          (simp [createEdges, edgeRowsOf, hsv, htv, hrest, Bind.bind, Except.bind];
            try (split <;> rfl))

/-- Every edge row the loop keeps has both endpoints among the
definition's node ids. -/
theorem edgeRowsOf_endpoints (workflow_id : String) (ids : List String) :
    ∀ (l : List Val), ∀ e ∈ edgeRowsOf workflow_id ids l,
      e.source_id ∈ ids ∧ e.target_id ∈ ids := by
  intro l
  induction l with
  | nil => intro e he; simp [edgeRowsOf] at he
  | cons v rest ih =>
      intro e he
      cases v with
      | dict ed =>
          simp only [edgeRowsOf] at he
          cases hsv : pyOr (oget ed "source") (oget ed "source_id") <;>
            simp only [hsv] at he
          case str s =>
            cases htv : pyOr (oget ed "target") (oget ed "target_id") <;>
              simp only [htv] at he
            case str t =>
              by_cases hc : s ∈ ids ∧ t ∈ ids
              · rw [if_pos (by simpa using hc)] at he
                rcases List.mem_cons.mp he with rfl | htail
                · exact hc
                · exact ih e htail
              · rw [if_neg (by simpa using hc)] at he
                exact ih e he
            all_goals exact ih e he
          all_goals exact ih e he
      | null => simp only [edgeRowsOf] at he; exact ih e he
      | bool b => simp only [edgeRowsOf] at he; exact ih e he
      | int n => simp only [edgeRowsOf] at he; exact ih e he
      | str s => simp only [edgeRowsOf] at he; exact ih e he
      | list xs => simp only [edgeRowsOf] at he; exact ih e he

/-- C4 (amended).  `create_workflow` performs no validation of the node
set: any definition (in the modelled fragment: dict nodes with explicit
distinct string ids new to the store, dict edges) is persisted with a
success payload — regardless of how many `start` nodes it has — and an
edge is kept iff both endpoints are ids of the definition's nodes;
offending edges are silently dropped, not errors. -/
theorem C4_create_workflow_accepts (db : DB) (business_id : String) (workflow_data : Obj)
    (nodesData edgesData : List Val)
    (hn : ogetD workflow_data "nodes" (Val.list []) = Val.list nodesData)
    (he : ogetD workflow_data "edges" (Val.list []) = Val.list edgesData)
    (hnode : ∀ v ∈ nodesData, ∃ nd, v = Val.dict nd ∧ ∃ s, olookup nd "id" = some (Val.str s))
    (hedge : ∀ v ∈ edgesData, ∃ ed, v = Val.dict ed)
    (hnodup : nodupB (nodesData.map nodeIdOf) = true)
    (hcol : db.nodes.any (fun n => ((nodesData.map nodeIdOf).contains n.id)) = false) :
    create_workflow db business_id workflow_data =
      ({ db with
        workflows := db.workflows ++ [{ id := freshId "wf" db.nextId, business_id := business_id, name := ogetD workflow_data "name" (Val.str "Untitled Workflow"), is_active := true, trigger_type := (match olookup workflow_data "trigger_type" with | some (Val.str s) => some s | _ => none), trigger_config := asObjD (ogetD workflow_data "trigger_config" (Val.dict [])) }],
        nodes := db.nodes ++ nodesData.map (nodeRowOf (freshId "wf" db.nextId)),
        edges := db.edges ++ edgeRowsOf (freshId "wf" db.nextId) (nodesData.map nodeIdOf) edgesData,
        nextId := db.nextId + 1 },
       Val.dict [("status", Val.str "success"), ("id", Val.str (freshId "wf" db.nextId))]) ∧
    (∀ e ∈ edgeRowsOf (freshId "wf" db.nextId) (nodesData.map nodeIdOf) edgesData,
      e.source_id ∈ nodesData.map nodeIdOf ∧ e.target_id ∈ nodesData.map nodeIdOf) := by
  constructor
  · have hids : (nodesData.map (nodeRowOf (freshId "wf" db.nextId))).map (fun n => n.id) =
        nodesData.map nodeIdOf := by
      rw [List.map_map]
      rfl
    have hcn := createNodes_explicit (freshId "wf" db.nextId) nodesData (db.nextId + 1) hnode
    have hce := createEdges_explicit (freshId "wf" db.nextId) (nodesData.map nodeIdOf)
      edgesData hedge
    have hcol2 : ¬ ∃ x ∈ db.nodes, ∃ a ∈ nodesData, nodeIdOf a = x.id := by
      simpa using hcol
    simp [create_workflow, hn, he, hcn, hce, hids, hnodup, hcol2, Bind.bind, Except.bind]
  · exact edgeRowsOf_endpoints (freshId "wf" db.nextId) (nodesData.map nodeIdOf) edgesData

/-- The empty store. -/
def dbEmpty : DB :=
  { workflows := [], nodes := [], edges := [], executions := [], steps := [], nextId := 0 }

/-- A definition payload with no start node and an edge to a
non-existent node. -/
def wdataNoStart : Obj :=
  [("name", Val.str "W"),
   ("nodes", Val.list [Val.dict [("id", Val.str "a"), ("type", Val.str "action")]]),
   ("edges", Val.list [Val.dict [("source", Val.str "a"), ("target", Val.str "zz")]])]

/-- C4, counterexample to the claim as stated: a definition with zero
`start` nodes and an edge whose target refers to no node is accepted —
success payload, workflow persisted — with the offending edge silently
dropped rather than the request rejected. -/
theorem C4_counterexample :
    (create_workflow dbEmpty "b" wdataNoStart).2 =
      Val.dict [("status", Val.str "success"), ("id", Val.str "wf0")] ∧
    (create_workflow dbEmpty "b" wdataNoStart).1.workflows.map (fun w => w.id) = ["wf0"] ∧
    (create_workflow dbEmpty "b" wdataNoStart).1.nodes.filter (fun n => n.type == some "start") = [] ∧
    (create_workflow dbEmpty "b" wdataNoStart).1.edges = [] :=
  ⟨rfl, rfl, rfl, rfl⟩

/-- A two-node definition with one valid and one dangling edge. -/
def wdataW : Obj :=
  [("name", Val.str "W"),
   ("nodes", Val.list [Val.dict [("id", Val.str "a"), ("type", Val.str "start")], Val.dict [("id", Val.str "bn"), ("type", Val.str "action")]]),
   ("edges", Val.list [Val.dict [("source", Val.str "a"), ("target", Val.str "bn")], Val.dict [("source", Val.str "a"), ("target", Val.str "zz")]])]

/-- Witness for `C4_create_workflow_accepts` on `wdataW`. -/
theorem C4_create_workflow_accepts_witness :
    ogetD wdataW "nodes" (Val.list []) =
      Val.list [Val.dict [("id", Val.str "a"), ("type", Val.str "start")], Val.dict [("id", Val.str "bn"), ("type", Val.str "action")]] ∧
    (create_workflow dbEmpty "b" wdataW).2 =
      Val.dict [("status", Val.str "success"), ("id", Val.str "wf0")] ∧
    (create_workflow dbEmpty "b" wdataW).1.edges.map (fun e => (e.source_id, e.target_id)) =
      [("a", "bn")] := by
  refine ⟨rfl, ?_, ?_⟩ <;>
  · have h := C4_create_workflow_accepts dbEmpty "b" wdataW
      [Val.dict [("id", Val.str "a"), ("type", Val.str "start")], Val.dict [("id", Val.str "bn"), ("type", Val.str "action")]]
      [Val.dict [("source", Val.str "a"), ("target", Val.str "bn")], Val.dict [("source", Val.str "a"), ("target", Val.str "zz")]]
      rfl rfl
      (by
        intro v hv
        rcases List.mem_cons.mp hv with rfl | hv2
        · exact ⟨_, rfl, "a", rfl⟩
        · rcases List.mem_cons.mp hv2 with rfl | hv3
          · exact ⟨_, rfl, "bn", rfl⟩
          · exact absurd hv3 (List.not_mem_nil v))
      (by
        intro v hv
        rcases List.mem_cons.mp hv with rfl | hv2
        · exact ⟨_, rfl⟩
        · rcases List.mem_cons.mp hv2 with rfl | hv3
          · exact ⟨_, rfl⟩
          · exact absurd hv3 (List.not_mem_nil v))
      rfl rfl
    rw [h.1]
    rfl
